import Mathlib

/-!
# Verification of the `sto_libdata` normalization engine

This file gives a shallow embedding of the core of
`src/sto_libdata/dataframe_handling/normalization.py`:

* `_ForeignKeyStateHandler` (the bidirectional foreign-key index built on
  `defaultdict`s) and its operations `add_foreign_key`, `rename_column`,
  `rename_table`;
* `NormalizationHandler` (table state plus the index) and its operations
  `extract_new_table`, `rename_table`, `rename_column`.

Python `dict`s are modelled as association lists with insertion-order
semantics: `setitem` replaces in place or appends, `pop` removes, and a
`defaultdict` `getitem` on a missing key inserts an empty entry (modelled by
`touch`).  Crucially, Python's `dict.pop` on a missing key raises `KeyError`
even on a `defaultdict`; operations that can raise return `Except`, with the
error value carrying the (possibly partially mutated) state of the object at
the moment the exception is raised, exactly as the Python objects retain their
partial mutations.

Pandas dataframes are modelled as a column-name list plus rows as total
functions from column names to values; the pandas operations the source uses
(`__getitem__` projection, `dropna(how="all")`, `drop_duplicates`, `merge`
with `how="left"` and suffixes `("", "___")`, `rename`, column selection)
are modelled on that representation.  In merges and duplicate detection
pandas treats null keys as equal to null keys, which the decidable equality
on `Value` reproduces.  The order in which Python materialises
`set(merged.columns) - set(join_columns)` is unspecified; the model fixes
the source's column order, and properties about column *sets* are unaffected.
-/

/-! ## Association lists with Python dict semantics -/

/-- Lookup in an association list (first binding wins; Python dict keys are
unique, so this is exactly `d.get(k)`). -/
def lookupA {α : Type} : List (String × α) → String → Option α
  | [], _ => none
  | p :: t, k => if p.1 = k then some p.2 else lookupA t k

/-- Python `d[k] = v`: replace the binding in place if present, else append. -/
def aset {α : Type} : List (String × α) → String → α → List (String × α)
  | [], k, v => [(k, v)]
  | p :: t, k, v => if p.1 = k then (k, v) :: t else p :: aset t k v

/-- Python `d.pop(k)` (the removal part): drop the binding for `k`. -/
def aerase {α : Type} : List (String × α) → String → List (String × α)
  | [], _ => []
  | p :: t, k => if p.1 = k then aerase t k else p :: aerase t k

/-- A `defaultdict` `getitem` read on key `k`: inserts `(k, d)` at the end if
`k` is absent, otherwise leaves the dict unchanged. -/
def touch {α : Type} (l : List (String × α)) (k : String) (d : α) :
    List (String × α) :=
  if (lookupA l k).isSome then l else l ++ [(k, d)]

/-- The inner dict stored at key `k`, where `defaultdict` semantics makes a
missing outer key read as an empty inner dict. -/
def getInner {α : Type} (l : List (String × List (String × α))) (k : String) :
    List (String × α) :=
  (lookupA l k).getD []

/-- Two-level lookup `d[k1][k2]` (without creation effects). -/
def lookup2 {α : Type} (l : List (String × List (String × α)))
    (k1 k2 : String) : Option α :=
  lookupA (getInner l k1) k2

/-- Python `d[k1][k2] = v` on a `defaultdict` of dicts: the outer `getitem`
creates the inner dict if needed, then the inner `setitem` runs in place. -/
def aset2 {α : Type} (l : List (String × List (String × α)))
    (k1 k2 : String) (v : α) : List (String × List (String × α)) :=
  aset l k1 (aset (getInner l k1) k2 v)

/-! ## The dataframe model (the pandas fragment the source uses) -/

/-- A cell value: the example data uses integers and strings; `null` stands
for pandas `NaN`/`None`.  Decidable equality identifies `null` with `null`,
matching how pandas `merge` and `drop_duplicates` treat missing keys. -/
inductive Value where
  | int : Int → Value
  | str : String → Value
  | null : Value
deriving DecidableEq

/-- A row, read by column name.  Columns outside the frame's column list are
irrelevant junk. -/
def Row : Type := String → Value

/-- The all-null row used for non-matching left-join rows. -/
def nullRow : Row := fun _ => Value.null

/-- A dataframe: ordered column names plus rows. -/
structure DataFrame where
  cols : List String
  rows : List Row

/-- `true` iff the value is null. -/
def Value.isNullB : Value → Bool
  | Value.null => true
  | _ => false

/-- The values of one column, top to bottom. -/
def colValues (df : DataFrame) (c : String) : List Value :=
  df.rows.map (fun r => r c)

/-- A row's values on a list of columns (the deduplication/join key). -/
def keyOf (cl : List String) (r : Row) : List Value :=
  cl.map r

/-- `true` iff the row is null on every column in `cl`
(pandas `dropna(how="all")` drops exactly these rows of the projection). -/
def allNullB (cl : List String) (r : Row) : Bool :=
  cl.all (fun c => (r c).isNullB)

/-- First-occurrence deduplication by the key `cl`, with the set of already
seen keys as accumulator (pandas `drop_duplicates`). -/
def dedupAux (cl : List String) : List Row → List (List Value) → List Row
  | [], _ => []
  | r :: rs, seen =>
      if keyOf cl r ∈ seen then dedupAux cl rs seen
      else r :: dedupAux cl rs (keyOf cl r :: seen)

/-- pandas `drop_duplicates()`: keep the first occurrence of each key. -/
def dedupRows (cl : List String) (rows : List Row) : List Row :=
  dedupAux cl rows []

/-- `NormalizationHandler.__extract_table`:
`base[column_list].dropna(how="all").drop_duplicates()` followed by
`reset_index(drop=True)` and `new_table["ID"] = new_table.index + 1`.
If `"ID"` is among the extracted columns the assignment overwrites it,
otherwise a new `"ID"` column is appended. -/
def extractTable (base : DataFrame) (cl : List String) : DataFrame :=
  let rows1 := base.rows.filter (fun r => !(allNullB cl r))
  let rows2 := dedupRows cl rows1
  { cols := if "ID" ∈ cl then cl else cl ++ ["ID"],
    rows := rows2.enum.map
      (fun p => fun c => if c = "ID" then Value.int (p.1 + 1) else p.2 c) }

/-- The right-frame column renaming of
`base.merge(dim, on=join_columns, suffixes=("", "___"), how="left")`:
a non-key right column colliding with a left column gets the `"___"`
suffix; left columns keep their names (left suffix is empty). -/
def suffixR (baseCols : List String) (c : String) : String :=
  if c ∈ baseCols then c ++ "___" else c

/-- The right rows matching a left row on the join columns.  Null keys match
null keys, as pandas `merge` does. -/
def matchingRows (dim : DataFrame) (joinCols : List String) (b : Row) :
    List Row :=
  dim.rows.filter (fun d => joinCols.all (fun c => decide (b c = d c)))

/-- One output row of the left join: right (non-key) columns are read, under
their suffixed names, from the matching right row (all null when there is no
match); every other column is read from the left row. -/
def combineRow (baseCols rightCols : List String) (b : Row) (d : Option Row) :
    Row :=
  fun c =>
    match rightCols.find? (fun c0 => decide (suffixR baseCols c0 = c)) with
    | some c0 => (match d with
                  | some dr => dr c0
                  | none => Value.null)
    | none => b c

/-- Left join (`merge(..., how="left")`, suffixes `("", "___")`): every left
row is kept; it is combined with each matching right row, or with an all-null
right row if none matches. -/
def mergeLeft (base dim : DataFrame) (joinCols : List String) : DataFrame :=
  let rightCols := dim.cols.filter (fun c => decide (c ∉ joinCols))
  { cols := base.cols ++ rightCols.map (suffixR base.cols),
    rows := base.rows.flatMap (fun b =>
      match matchingRows dim joinCols b with
      | [] => [combineRow base.cols rightCols b none]
      | ms => ms.map (fun d => combineRow base.cols rightCols b (some d))) }

/-- pandas `df.rename(columns={old: new})`: a no-op when `old` is absent;
otherwise the column is relabelled and reads of `new` see `old`'s values. -/
def renameCol (df : DataFrame) (old new : String) : DataFrame :=
  if old ∈ df.cols then
    { cols := df.cols.map (fun c => if c = old then new else c),
      rows := df.rows.map (fun r => fun c => if c = new then r old else r c) }
  else df

/-- `NormalizationHandler.__replace_columns_by_fk`: left-join `base` to `dim`
on `join_columns`, rename the suffixed surrogate-key column `"ID___"` to
`fk_column_name`, and keep `set(merged.columns) - set(join_columns)`. -/
def replaceColumnsByFk (base dim : DataFrame) (join_columns : List String)
    (fk_column_name : String) : DataFrame :=
  let merged := renameCol (mergeLeft base dim join_columns) "ID___"
    fk_column_name
  { cols := merged.cols.filter (fun c => decide (c ∉ join_columns)),
    rows := merged.rows }

/-- Everything after the first occurrence of `sep`, if any. -/
def afterFirstSep (sep : Char) : List Char → Option (List Char)
  | [] => none
  | c :: cs => if c = sep then some cs else afterFirstSep sep cs

/-- Python `s.split('_', 1)[-1]`: the part after the first underscore, or the
whole string when it contains no underscore. -/
def pySplitTail (s : String) : String :=
  match afterFirstSep '_' s.data with
  | some t => String.mk t
  | none => s

/-- The default foreign-key column name heuristic of
`NormalizationHandler.extract_new_table`:
`f"ID_{new_table_name.split('_', 1)[-1]}"`. -/
def defaultColumnName (new_table_name : String) : String :=
  "ID_" ++ pySplitTail new_table_name

/-! ## `_ForeignKeyStateHandler` -/

/-- `TableAndColumnName`: a `(table_name, column_name)` pair. -/
abbrev TableAndColumnName : Type := String × String

/-- A Python `set[TableAndColumnName]` modelled as a duplicate-free list;
`add` appends if absent. -/
def sadd (s : List TableAndColumnName) (x : TableAndColumnName) :
    List TableAndColumnName :=
  if x ∈ s then s else s ++ [x]

/-- Python `s -= {x}`. -/
def srem (s : List TableAndColumnName) (x : TableAndColumnName) :
    List TableAndColumnName :=
  s.filter (fun y => decide (¬ y = x))

/-- The inner origin set at `inverse[t][c]`, empty when absent. -/
def getSet (inv : List (String × List (String × List TableAndColumnName)))
    (t c : String) : List TableAndColumnName :=
  (lookup2 inv t c).getD []

/-- The state of `_ForeignKeyStateHandler`: the forward index
`__foreign_keys` and the inverted index `__inverted_index`, both
insertion-ordered dicts. -/
structure FKState where
  forward : List (String × List (String × TableAndColumnName))
  inverse : List (String × List (String × List TableAndColumnName))
deriving DecidableEq

/-- The state of a freshly constructed `_ForeignKeyStateHandler`. -/
def FKState.empty : FKState := { forward := [], inverse := [] }

namespace FKState

/-- `_ForeignKeyStateHandler.add_foreign_key`. -/
def add_foreign_key (s : FKState) (origin_table origin_column
    destination_table destination_column : String) : FKState :=
  { forward := aset2 s.forward origin_table origin_column
      (destination_table, destination_column),
    inverse := aset2 s.inverse destination_table destination_column
      (sadd (getSet s.inverse destination_table destination_column)
        (origin_table, origin_column)) }

/-- `_ForeignKeyStateHandler.__replace_in_inverted_index`:
`inverse[table][column] -= {old_names}; inverse[table][column].add(new_names)`
(the `defaultdict` getitem creates the entry when absent). -/
def replace_in_inverted_index
    (inv : List (String × List (String × List TableAndColumnName)))
    (table column : String) (old_names new_names : TableAndColumnName) :
    List (String × List (String × List TableAndColumnName)) :=
  aset2 inv table column (sadd (srem (getSet inv table column) old_names)
    new_names)

/-- `_ForeignKeyStateHandler.rename_column`, line by line.  The membership
tests `old_name in self.__foreign_keys[table]` and
`old_name in self.__inverted_index[table]` go through `defaultdict`
getitems, so they create empty entries for `table`; the final loop's getitem
creates an empty set at `inverse[table][new_name]`.  No step can raise. -/
def rename_column (s : FKState) (table old_name new_name : String) :
    FKState :=
  let fwd0 := touch s.forward table []
  let step1 :=
    match lookup2 fwd0 table old_name with
    | some pointed =>
        let fwdA := aset fwd0 table
          (aset (aerase (getInner fwd0 table) old_name) new_name pointed)
        (fwdA, replace_in_inverted_index s.inverse pointed.1 pointed.2
          (table, old_name) (table, new_name))
    | none => (fwd0, s.inverse)
  let fwd1 := step1.1
  let inv1 := step1.2
  let inv2 := touch inv1 table []
  let inv3 :=
    match lookupA (getInner inv2 table) old_name with
    | some origins => aset inv2 table
        (aset (aerase (getInner inv2 table) old_name) new_name origins)
    | none => inv2
  let inv4 := aset inv3 table (touch (getInner inv3 table) new_name [])
  let affected := getSet inv4 table new_name
  let fwd2 := affected.foldl
    (fun f tc => aset2 f tc.1 tc.2 (table, new_name)) fwd1
  { forward := fwd2, inverse := inv4 }

/-- `_ForeignKeyStateHandler.rename_table`, line by line.  The final
`self.__inverted_index[new_name] = self.__inverted_index.pop(old_name)`
raises `KeyError` when `old_name` is not a key of the inverted index
(`defaultdict.pop` does not consult the default factory); the `error`
value is the state of the handler at the moment of the raise, with the
mutations of the earlier lines already applied. -/
def rename_table (s : FKState) (old_name new_name : String) :
    Except FKState FKState :=
  let fwd1 :=
    match lookupA s.forward old_name with
    | some inner => aset (aerase s.forward old_name) new_name inner
    | none => s.forward
  let fwd2 := touch fwd1 new_name []
  let entries := getInner fwd2 new_name
  let inv2 := entries.foldl
    (fun inv e => replace_in_inverted_index inv e.2.1 e.2.2
      (old_name, e.1) (new_name, e.1)) s.inverse
  match lookupA inv2 old_name with
  | none => Except.error { forward := fwd2, inverse := inv2 }
  | some innerOld =>
      let inv3 := aset (aerase inv2 old_name) new_name innerOld
      let items := getInner inv3 new_name
      let fwd3 := items.foldl
        (fun f e => e.2.foldl
          (fun f tc => aset2 f tc.1 tc.2 (new_name, e.1)) f) fwd2
      Except.ok { forward := fwd3, inverse := inv3 }

end FKState

/-! ## `NormalizationHandler` -/

/-- The mutable session state of a `NormalizationHandler`: `__table_state`
and the `_ForeignKeyStateHandler`. -/
structure EngineState where
  tableState : List (String × DataFrame)
  fk : FKState

namespace EngineState

/-- `NormalizationHandler.extract_new_table`.  A missing source table or a
missing extraction column raises (`KeyError`) before any state is mutated;
otherwise the updated source, the new dimension table and the foreign-key
registration are all committed.  `column_list` is the iteration order of the
Python `set` argument. -/
def extract_new_table (s : EngineState) (from_table : String)
    (column_list : List String) (new_table_name : String)
    (new_column_name : Option String) : Except EngineState EngineState :=
  let ncn := new_column_name.getD (defaultColumnName new_table_name)
  match lookupA s.tableState from_table with
  | none => Except.error s
  | some base =>
      if column_list.all (fun c => decide (c ∈ base.cols)) then
        let new_table := extractTable base column_list
        let substituted := replaceColumnsByFk base new_table column_list ncn
        Except.ok
          { tableState := aset (aset s.tableState from_table substituted)
              new_table_name new_table,
            fk := s.fk.add_foreign_key from_table ncn new_table_name "ID" }
      else Except.error s

/-- `NormalizationHandler.rename_table`: the existence assertion raises
before any mutation; then the `__table_state` entry is moved and
`_ForeignKeyStateHandler.rename_table` runs.  When the latter raises, the
table state keeps the already-applied move and the index keeps its partial
mutations (the `error` value). -/
def rename_table (s : EngineState) (old_name new_name : String) :
    Except EngineState EngineState :=
  match lookupA s.tableState old_name with
  | none => Except.error s
  | some df =>
      let ts := aset (aerase s.tableState old_name) new_name df
      match s.fk.rename_table old_name new_name with
      | Except.error fkPartial =>
          Except.error { tableState := ts, fk := fkPartial }
      | Except.ok fk2 => Except.ok { tableState := ts, fk := fk2 }

/-- `NormalizationHandler.rename_column`: the assertions raise before any
mutation; then the dataframe column is renamed and
`_ForeignKeyStateHandler.rename_column` (which cannot raise) runs. -/
def rename_column (s : EngineState) (table old_name new_name : String) :
    Except EngineState EngineState :=
  match lookupA s.tableState table with
  | none => Except.error s
  | some df =>
      if old_name ∈ df.cols then
        Except.ok
          { tableState := aset s.tableState table (renameCol df old_name
              new_name),
            fk := s.fk.rename_column table old_name new_name }
      else Except.error s

end EngineState

/-- The bidirectional-consistency invariant of the foreign-key index:
`(t, c) ↦ p` is in the forward view iff `(t, c)` is a member of the origin
set of the inverse view at `p`, with no extra or missing entries. -/
def BiConsistent (s : FKState) : Prop :=
  ∀ t c p, lookup2 s.forward t c = some p ↔ (t, c) ∈ getSet s.inverse p.1 p.2

/-! ## Comparison helpers and concrete states -/

/-- Python `set` equality of origin sets: same members. -/
def setEqB (s t : List TableAndColumnName) : Bool :=
  s.all (fun x => decide (x ∈ t)) && t.all (fun x => decide (x ∈ s))

/-- Python `dict` equality: equal key sets and, key by key, values equal
under `veq` (insertion order is irrelevant to `==` on dicts). -/
def dictEqB {α : Type} (veq : α → α → Bool) (a b : List (String × α)) : Bool :=
  (a.all (fun kv =>
    match lookupA a kv.1, lookupA b kv.1 with
    | some v, some w => veq v w
    | _, _ => false)) &&
  (b.all (fun kv => (lookupA a kv.1).isSome))

/-- Python equality of two forward indices. -/
def forwardEqB (a b : List (String × List (String × TableAndColumnName))) :
    Bool :=
  dictEqB (dictEqB (fun x y => decide (x = y))) a b

/-- Python equality of two inverted indices. -/
def inverseEqB
    (a b : List (String × List (String × List TableAndColumnName))) : Bool :=
  dictEqB (dictEqB setEqB) a b

/-- The success value of an operation, if any. -/
def okPart {ε α : Type} : Except ε α → Option α
  | Except.ok a => some a
  | Except.error _ => none

/-- The state of the object at the moment an operation raised, if it did. -/
def errPart {ε α : Type} : Except ε α → Option ε
  | Except.error e => some e
  | Except.ok _ => none

/-- A freshly constructed `NormalizationHandler` with no dataframes. -/
def emptyEngine : EngineState := { tableState := [], fk := FKState.empty }

/-- The success state of an engine operation (junk default on error). -/
def okStateD (e : Except EngineState EngineState) : EngineState :=
  (okPart e).getD emptyEngine

/-- Build a row from an explicit assignment, null elsewhere. -/
def mkRow (l : List (String × Value)) : Row :=
  fun c => (lookupA l c).getD Value.null

/-- The name the surrogate-key column actually carries in the updated source
dataset: the merge only suffixes the dimension's `"ID"` (so that the rename
to the requested name fires) when the source already has an `"ID"` column. -/
def fkColName (base : DataFrame) (ncn : String) : String :=
  if "ID" ∈ base.cols then ncn else "ID"

/-- The spec scenario's source table `FACT` (§8, deduplication correctness). -/
def factDF : DataFrame :=
  { cols := ["ID", "CO", "TXT"],
    rows := [
      mkRow [("ID", Value.int 1), ("CO", Value.int 1),
        ("TXT", Value.str "Juan")],
      mkRow [("ID", Value.int 2), ("CO", Value.int 1),
        ("TXT", Value.str "Juan")],
      mkRow [("ID", Value.int 3), ("CO", Value.int 1),
        ("TXT", Value.str "Juan")],
      mkRow [("ID", Value.int 4), ("CO", Value.int 2),
        ("TXT", Value.str "Juan")],
      mkRow [("ID", Value.int 5), ("CO", Value.int 5),
        ("TXT", Value.str "Juan2")] ] }

/-- An engine holding only the `FACT` table. -/
def engineFact : EngineState :=
  { tableState := [("FACT", factDF)], fk := FKState.empty }

/-- A one-column, one-row dataframe. -/
def singleColDF : DataFrame :=
  { cols := ["X"], rows := [mkRow [("X", Value.int 1)]] }

/-- An engine holding a single relation-free table `A`. -/
def engineOnlyA : EngineState :=
  { tableState := [("A", singleColDF)], fk := FKState.empty }

/-- An engine holding a single relation-free table `T1`. -/
def engineOnlyT1 : EngineState :=
  { tableState := [("T1", singleColDF)], fk := FKState.empty }

/-- An engine with tables `S`, `A` and one relation `S.x -> A.ID`. -/
def engineSA : EngineState :=
  { tableState := [("S", singleColDF), ("A", singleColDF)],
    fk := FKState.empty.add_foreign_key "S" "x" "A" "ID" }

/-- A one-string-column dataframe named for the C8 scenario. -/
def txtDF : DataFrame :=
  { cols := ["TXT"], rows := [mkRow [("TXT", Value.str "a")]] }

/-- An engine holding only table `T` with column `TXT`. -/
def engineTxt : EngineState :=
  { tableState := [("T", txtDF)], fk := FKState.empty }

/-- An index where the relation for origin `T.C` was overwritten by a second
`add_foreign_key` call. -/
def fkOverwrite : FKState :=
  (FKState.empty.add_foreign_key "T" "C" "A" "B").add_foreign_key
    "T" "C" "A2" "B2"

/-- An index where origin `A.B` first pointed at `T.NEW` and was then
overwritten to point at `X.Y`, leaving a stale member in
`inverse[T][NEW]`. -/
def fkTwoDest : FKState :=
  (FKState.empty.add_foreign_key "A" "B" "T" "NEW").add_foreign_key
    "A" "B" "X" "Y"

/-- The C8 claim's formula read literally from its words: `"ID_"` prepended
to the table name with its first underscore-delimited segment stripped (a
name consisting of a single segment loses that segment entirely).  This
definition follows the claim's words and is compared with
`defaultColumnName`, which is translated from the source. -/
def specClaimedColumnName (ntn : String) : String :=
  "ID_" ++ (match afterFirstSep '_' ntn.data with
            | some t => String.mk t
            | none => "")

/-- The amended formula: the part of the name after its first underscore
when it has one, the whole name otherwise, with `"ID_"` prepended. -/
def amendedColumnName (ntn : String) : String :=
  if ntn.data.contains '_' then
    "ID_" ++ String.mk ((ntn.data.dropWhile (fun c => decide (¬ c = '_'))).drop 1)
  else "ID_" ++ ntn

/-- Chunked decidability instances for the nested index types (instance
search needs the intermediate steps registered). -/
instance : DecidableEq (List (String × TableAndColumnName)) := inferInstance

instance : DecidableEq (List (String × List (String × TableAndColumnName))) :=
  inferInstance

instance : DecidableEq (List (String × List TableAndColumnName)) :=
  inferInstance

instance :
    DecidableEq (List (String × List (String × List TableAndColumnName))) :=
  inferInstance

/-- The table-name relabelling `old ↦ new` on `(table, column)` pairs,
describing the effect of a table rename on stored relation endpoints. -/
def relabelT (old new : String) (p : TableAndColumnName) : TableAndColumnName :=
  if p.1 = old then (new, p.2) else p

/-- The reverse relabelling `new ↦ old`. -/
def unlabelT (old new : String) (p : TableAndColumnName) : TableAndColumnName :=
  if p.1 = new then (old, p.2) else p

/-- An index holding the single relation `("A","B") -> ("T","NEW")`. -/
def fkOneRel : FKState := FKState.empty.add_foreign_key "A" "B" "T" "NEW"

/-- The state carried by an `FKState` rename result, whether it raised or
not. -/
def okFKD (e : Except FKState FKState) : FKState :=
  match e with
  | Except.ok v => v
  | Except.error v => v

/-- An engine state with tables `A` and `T` and the single relation of
`fkOneRel`. -/
def engineRT : EngineState :=
  { tableState := [("A", singleColDF), ("T", singleColDF)], fk := fkOneRel }

/-- A source frame without an `"ID"` column. -/
def noIdDF : DataFrame :=
  { cols := ["CO", "TXT"],
    rows := [mkRow [("CO", Value.int 1), ("TXT", Value.str "x")],
             mkRow [("CO", Value.int 2), ("TXT", Value.str "x")]] }

/-- The non-join columns of the extracted dimension, exactly as
`merge` computes them inside `__replace_columns_by_fk`. -/
def dimRightCols (base : DataFrame) (cl : List String) : List String :=
  (extractTable base cl).cols.filter (fun c => decide (c ∉ cl))

/-- The merged output rows generated by one left row `b` of the source
(before the `"ID___"` rename). -/
def joinOutputs (base : DataFrame) (cl : List String) (b : Row) : List Row :=
  match matchingRows (extractTable base cl) cl b with
  | [] => [combineRow base.cols (dimRightCols base cl) b none]
  | ms => ms.map (fun d => combineRow base.cols (dimRightCols base cl) b
      (some d))

/-- The row relabelling performed by `rename(columns={"ID___": ncn})`. -/
def fkRename (ncn : String) (r : Row) : Row :=
  fun c => if c = ncn then r "ID___" else r c

/-! ## Lemmas about the dict model -/

theorem lookupA_aset {α : Type} (l : List (String × α)) (k x : String) (v : α) :
    lookupA (aset l k v) x = if x = k then some v else lookupA l x := by
  induction l with
  | nil =>
    by_cases hx : x = k
    · simp [aset, lookupA, hx]
    · have hkx : ¬ k = x := fun h => hx h.symm
      simp [aset, lookupA, hx, hkx]
  | cons p t ih =>
    by_cases hp : p.1 = k
    · by_cases hx : x = k
      · simp [aset, lookupA, hp, hx]
      · have hkx : ¬ k = x := fun h => hx h.symm
        have hpx : ¬ p.1 = x := by rw [hp]; exact hkx
        simp [aset, lookupA, hp, hx, hkx, hpx]
    · by_cases hpx : p.1 = x
      · have hxk : ¬ x = k := by intro h; exact hp (hpx.trans h)
        simp [aset, lookupA, hp, hpx, hxk]
      · simp [aset, lookupA, hp, hpx, ih]

theorem lookupA_aerase {α : Type} (l : List (String × α)) (k x : String) :
    lookupA (aerase l k) x = if x = k then none else lookupA l x := by
  induction l with
  | nil => by_cases hx : x = k <;> simp [aerase, lookupA, hx]
  | cons p t ih =>
    by_cases hp : p.1 = k
    · by_cases hx : x = k
      · subst hx
        simp [aerase, hp, ih]
      · have hkx : ¬ k = x := fun h => hx h.symm
        have hpx : ¬ p.1 = x := by rw [hp]; exact hkx
        simp [aerase, lookupA, hp, ih, hx, hpx, hkx]
    · by_cases hpx : p.1 = x
      · have hxk : ¬ x = k := by intro h; exact hp (hpx.trans h)
        simp [aerase, lookupA, hp, hpx, hxk]
      · simp [aerase, lookupA, hp, hpx, ih]

theorem lookupA_append {α : Type} (l m : List (String × α)) (x : String) :
    lookupA (l ++ m) x =
      match lookupA l x with
      | some v => some v
      | none => lookupA m x := by
  induction l with
  | nil => simp [lookupA]
  | cons p t ih =>
    by_cases hpx : p.1 = x
    · simp [lookupA, hpx]
    · simp [lookupA, hpx, ih]

theorem lookupA_touch {α : Type} (l : List (String × α)) (k x : String) (d : α) :
    lookupA (touch l k d) x =
      if x = k then some ((lookupA l k).getD d) else lookupA l x := by
  cases h : lookupA l k with
  | some v =>
    have ht : touch l k d = l := by simp [touch, h]
    rw [ht]
    by_cases hx : x = k
    · rw [hx, h]
      simp
    · simp [hx]
  | none =>
    have ht : touch l k d = l ++ [(k, d)] := by simp [touch, h]
    rw [ht, lookupA_append]
    by_cases hx : x = k
    · subst hx
      simp [h, lookupA]
    · have hkx : ¬ k = x := fun hh => hx hh.symm
      simp only [hx, if_false, lookupA, hkx, Option.getD_none]
      cases lookupA l x <;> simp [lookupA, hkx]

theorem getInner_aset {α : Type} (l : List (String × List (String × α)))
    (k x : String) (v : List (String × α)) :
    getInner (aset l k v) x = if x = k then v else getInner l x := by
  unfold getInner
  rw [lookupA_aset]
  by_cases hx : x = k <;> simp [hx]

theorem getInner_aerase {α : Type} (l : List (String × List (String × α)))
    (k x : String) :
    getInner (aerase l k) x = if x = k then [] else getInner l x := by
  unfold getInner
  rw [lookupA_aerase]
  by_cases hx : x = k <;> simp [hx]

theorem getInner_touch {α : Type} (l : List (String × List (String × α)))
    (k x : String) :
    getInner (touch l k []) x = getInner l x := by
  unfold getInner
  rw [lookupA_touch]
  by_cases hx : x = k
  · subst hx
    cases h : lookupA l x <;> simp [h]
  · simp [hx]

theorem lookup2_aset2 {α : Type} (l : List (String × List (String × α)))
    (k1 k2 x y : String) (v : α) :
    lookup2 (aset2 l k1 k2 v) x y =
      if x = k1 then (if y = k2 then some v else lookup2 l k1 y)
      else lookup2 l x y := by
  unfold lookup2 aset2
  rw [getInner_aset]
  by_cases hx : x = k1
  · simp only [hx, if_true]
    rw [lookupA_aset]
  · simp [hx]

theorem lookup2_touch {α : Type} (l : List (String × List (String × α)))
    (k x y : String) :
    lookup2 (touch l k []) x y = lookup2 l x y := by
  unfold lookup2
  rw [getInner_touch]


/-! ## Small facts about sets and the index -/

theorem mem_sadd {s : List TableAndColumnName} {x y : TableAndColumnName} :
    y ∈ sadd s x ↔ y = x ∨ y ∈ s := by
  unfold sadd
  by_cases h : x ∈ s
  · simp only [h, if_true]
    constructor
    · intro hy; exact Or.inr hy
    · intro hy
      rcases hy with hy | hy
      · rw [hy]; exact h
      · exact hy
  · simp only [h, if_false, List.mem_append, List.mem_singleton]
    constructor
    · intro hy; rcases hy with hy | hy
      · exact Or.inr hy
      · exact Or.inl hy
    · intro hy; rcases hy with hy | hy
      · exact Or.inr hy
      · exact Or.inl hy

theorem mem_srem {s : List TableAndColumnName} {x y : TableAndColumnName} :
    y ∈ srem s x ↔ y ∈ s ∧ ¬ y = x := by
  unfold srem
  rw [List.mem_filter]
  simp

theorem getSet_aset2_self
    (inv : List (String × List (String × List TableAndColumnName)))
    (a b : String) (v : List TableAndColumnName) :
    getSet (aset2 inv a b v) a b = v := by
  unfold getSet
  rw [lookup2_aset2]
  simp

theorem afterFirstSep_eq (l : List Char) :
    afterFirstSep '_' l =
      if l.contains '_' then
        some ((l.dropWhile (fun c => decide (¬ c = '_'))).drop 1)
      else none := by
  induction l with
  | nil => simp [afterFirstSep]
  | cons c cs ih =>
    by_cases hc : c = '_'
    · subst hc
      simp [afterFirstSep, List.dropWhile]
    · have hcc : ¬ '_' = c := fun hh => hc hh.symm
      simp [afterFirstSep, hc, ih, List.dropWhile, List.contains_cons, hcc]

/-! ## Concrete-scenario claim theorems -/

/-- C4: starting from a table state holding `FACT` with
`ID=[1,2,3,4,5]`, `CO=[1,1,1,2,5]`, `TXT=["Juan","Juan","Juan","Juan",
"Juan2"]`, the call `extract_new_table("FACT", {"TXT"}, "DIM_NAME")`
succeeds and produces the dimension `DIM_NAME = {TXT:["Juan","Juan2"],
ID:[1,2]}`, rewrites `FACT` to `{ID:[1,2,3,4,5], CO:[1,1,1,2,5],
ID_NAME:[1,1,1,1,2]}` with `TXT` removed, and registers the relation
`(FACT, ID_NAME) -> (DIM_NAME, ID)` in both views of the index. -/
theorem claim_C4 :
    (okPart (EngineState.extract_new_table engineFact "FACT" ["TXT"]
        "DIM_NAME" none)).map (fun s =>
      (lookupA s.tableState "FACT").map (fun d => d.cols)) =
      some (some ["ID", "CO", "ID_NAME"]) ∧
    (okPart (EngineState.extract_new_table engineFact "FACT" ["TXT"]
        "DIM_NAME" none)).map (fun s =>
      (lookupA s.tableState "FACT").map (fun d => colValues d "ID")) =
      some (some [Value.int 1, Value.int 2, Value.int 3, Value.int 4,
        Value.int 5]) ∧
    (okPart (EngineState.extract_new_table engineFact "FACT" ["TXT"]
        "DIM_NAME" none)).map (fun s =>
      (lookupA s.tableState "FACT").map (fun d => colValues d "CO")) =
      some (some [Value.int 1, Value.int 1, Value.int 1, Value.int 2,
        Value.int 5]) ∧
    (okPart (EngineState.extract_new_table engineFact "FACT" ["TXT"]
        "DIM_NAME" none)).map (fun s =>
      (lookupA s.tableState "FACT").map (fun d => colValues d "ID_NAME")) =
      some (some [Value.int 1, Value.int 1, Value.int 1, Value.int 1,
        Value.int 2]) ∧
    (okPart (EngineState.extract_new_table engineFact "FACT" ["TXT"]
        "DIM_NAME" none)).map (fun s =>
      (lookupA s.tableState "DIM_NAME").map (fun d => d.cols)) =
      some (some ["TXT", "ID"]) ∧
    (okPart (EngineState.extract_new_table engineFact "FACT" ["TXT"]
        "DIM_NAME" none)).map (fun s =>
      (lookupA s.tableState "DIM_NAME").map (fun d => colValues d "ID")) =
      some (some [Value.int 1, Value.int 2]) ∧
    (okPart (EngineState.extract_new_table engineFact "FACT" ["TXT"]
        "DIM_NAME" none)).map (fun s =>
      (lookupA s.tableState "DIM_NAME").map (fun d => colValues d "TXT")) =
      some (some [Value.str "Juan", Value.str "Juan2"]) ∧
    (okPart (EngineState.extract_new_table engineFact "FACT" ["TXT"]
        "DIM_NAME" none)).map (fun s =>
      lookup2 s.fk.forward "FACT" "ID_NAME") =
      some (some ("DIM_NAME", "ID")) ∧
    (okPart (EngineState.extract_new_table engineFact "FACT" ["TXT"]
        "DIM_NAME" none)).map (fun s =>
      decide (("FACT", "ID_NAME") ∈ getSet s.fk.inverse "DIM_NAME" "ID")) =
      some true := by
  decide

/-- C3 (code bug): in an engine whose table state holds exactly the
relation-free table `A`, `rename_table("A", "B")` does not succeed as the
claim requires: `_ForeignKeyStateHandler.rename_table` reaches
`self.__inverted_index.pop(old_name)` with `"A"` absent from the inverted
index (a `defaultdict`'s `pop` does not consult the factory) and raises
`KeyError`, after the table-state entry has already been moved to `B` and
the forward index has been touched. -/
theorem claim_C3 :
    (lookupA engineOnlyA.tableState "A").isSome = true ∧
    engineOnlyA.fk = FKState.empty ∧
    (errPart (EngineState.rename_table engineOnlyA "A" "B")).map (fun s =>
      ((lookupA s.tableState "A").isSome, (lookupA s.tableState "B").isSome,
        s.fk.forward, s.fk.inverse)) = some (false, true, [("B", [])], []) := by
  decide

/-- C2 (code bug): `rename_table` is not atomic on error.  With a single
relation-free table `T1`, the call `rename_table("T1", "T2")` raises
`KeyError` (see C3) but the observable state at the raise has the
table-state entry already moved to `T2` and the forward index already
holding a `T2` entry — a partially applied mutation the claim rules out. -/
theorem claim_C2 :
    engineOnlyT1.tableState.map Prod.fst = ["T1"] ∧
    engineOnlyT1.fk.forward = [] ∧
    (errPart (EngineState.rename_table engineOnlyT1 "T1" "T2")).map (fun s =>
      (s.tableState.map Prod.fst, s.fk.forward, s.fk.inverse)) =
      some (["T2"], [("T2", [])], []) := by
  decide

/-- C1 (counterexample): after `add_foreign_key("T","C","A","B")` followed by
the overwriting `add_foreign_key("T","C","A2","B2")`, the stale member
`(T,C)` is still in `inverse[A][B]` while forward maps `(T,C)` to `(A2,B2)`,
so the bidirectional-consistency invariant fails after an overwriting add. -/
theorem claim_C1_counterexample : ¬ BiConsistent fkOverwrite := by
  intro h
  have hmem : ("T", "C") ∈ getSet fkOverwrite.inverse "A" "B" := by decide
  have h2 := (h "T" "C" ("A", "B")).2 hmem
  have h3 : lookup2 fkOverwrite.forward "T" "C" = some ("A2", "B2") := by
    decide
  rw [h3] at h2
  exact absurd h2 (by decide)

/-- C6 (counterexample): in an engine with tables `S`, `A` and the single
relation `S.x -> A.ID`, renaming `A` to `B` and back succeeds, restores the
inverted index and the table-state key list, but leaves the forward index
with an extra empty entry for `A` created by the `defaultdict` getitem of
`rename_table`, so the forward map is not restored to exact (Python `==`)
equality. -/
theorem claim_C6_counterexample :
    ((okPart (EngineState.rename_table engineSA "A" "B")).bind
        (fun s1 => okPart (EngineState.rename_table s1 "B" "A"))).map
      (fun s2 =>
        (forwardEqB s2.fk.forward engineSA.fk.forward,
         inverseEqB s2.fk.inverse engineSA.fk.inverse,
         s2.tableState.map Prod.fst)) =
      some (false, true, ["S", "A"]) := by
  decide

/-- C10 (counterexample): in the index left by `add_foreign_key("A","B","T",
"NEW")` then `add_foreign_key("A","B","X","Y")`, the pair `(T, OLD)` is
neither an origin nor a destination with a non-empty origin set, yet
`rename_column("T","OLD","NEW")` retargets the unrelated relation
`A.B -> X.Y` to `A.B -> T.NEW` through the stale member of
`inverse[T][NEW]`, so the claimed frame property fails as stated. -/
theorem claim_C10_counterexample :
    lookup2 fkTwoDest.forward "T" "OLD" = none ∧
    getSet fkTwoDest.inverse "T" "OLD" = [] ∧
    lookup2 fkTwoDest.forward "A" "B" = some ("X", "Y") ∧
    lookup2 (fkTwoDest.rename_column "T" "OLD" "NEW").forward "A" "B" =
      some ("T", "NEW") := by
  decide

/-- C8 (counterexample): for `new_table_name = "NAME"` (no underscore) the
claim's formula — `"ID_"` prepended to the name with its first
underscore-delimited segment stripped — yields `"ID_"`, while the code's
`split('_', 1)[-1]` keeps the whole name and uses and registers
`"ID_NAME"`. -/
theorem claim_C8_counterexample :
    specClaimedColumnName "NAME" = "ID_" ∧
    defaultColumnName "NAME" = "ID_NAME" ∧
    (okPart (EngineState.extract_new_table engineTxt "T" ["TXT"] "NAME"
        none)).map (fun s =>
      (lookup2 s.fk.forward "T" "ID_NAME", lookup2 s.fk.forward "T" "ID_")) =
      some (some ("NAME", "ID"), none) := by
  decide

/-- C8 (amended): when `new_column_name` is omitted, the foreign-key column
name used and registered in the index equals `"ID_"` prepended to the part
of `new_table_name` after its first underscore when it has one, and to
`new_table_name` unchanged otherwise; in particular `"DIM_REGION"` yields
`"ID_REGION"`.  Every successful call registers the relation under that name
in both views. -/
theorem claim_C8 :
    (∀ ntn, defaultColumnName ntn = amendedColumnName ntn) ∧
    defaultColumnName "DIM_REGION" = "ID_REGION" ∧
    ∀ (s : EngineState) (ft : String) (cl : List String) (ntn : String)
      (s₁ : EngineState),
      EngineState.extract_new_table s ft cl ntn none = Except.ok s₁ →
      lookup2 s₁.fk.forward ft (defaultColumnName ntn) = some (ntn, "ID") ∧
      (ft, defaultColumnName ntn) ∈ getSet s₁.fk.inverse ntn "ID" := by
  refine ⟨?_, by decide, ?_⟩
  · intro ntn
    unfold defaultColumnName amendedColumnName pySplitTail
    rw [afterFirstSep_eq]
    by_cases h : '_' ∈ ntn.data
    · simp [h]
    · simp [h]
  · intro s ft cl ntn s₁ h
    unfold EngineState.extract_new_table at h
    split at h
    · exact Except.noConfusion h
    · split at h
      · rw [Except.ok.injEq] at h
        subst h
        simp only [FKState.add_foreign_key, Option.getD_none]
        constructor
        · exact (lookup2_aset2 s.fk.forward ft (defaultColumnName ntn) ft
            (defaultColumnName ntn) (ntn, "ID")).trans (by simp)
        · rw [getSet_aset2_self]
          exact mem_sadd.mpr (Or.inl rfl)
      · exact Except.noConfusion h

/-- Witness for C8: the scenario of C4 applied through the amended theorem:
extracting into `"DIM_NAME"` with the default name registers the relation
under `defaultColumnName "DIM_NAME" = "ID_NAME"`. -/
theorem claim_C8_witness :
    EngineState.extract_new_table engineFact "FACT" ["TXT"] "DIM_NAME" none =
      Except.ok (okStateD (EngineState.extract_new_table engineFact "FACT"
        ["TXT"] "DIM_NAME" none)) ∧
    lookup2 (okStateD (EngineState.extract_new_table engineFact "FACT"
        ["TXT"] "DIM_NAME" none)).fk.forward "FACT"
        (defaultColumnName "DIM_NAME") = some ("DIM_NAME", "ID") :=
  ⟨rfl, (claim_C8.2.2 engineFact "FACT" ["TXT"] "DIM_NAME" _ rfl).1⟩

/-! ## Effect lemmas for the index operations -/

theorem getSet_aset2
    (inv : List (String × List (String × List TableAndColumnName)))
    (a b x y : String) (v : List TableAndColumnName) :
    getSet (aset2 inv a b v) x y =
      if x = a then (if y = b then v else getSet inv a y)
      else getSet inv x y := by
  unfold getSet
  rw [lookup2_aset2]
  by_cases hx : x = a
  · by_cases hy : y = b <;> simp [hx, hy, lookup2]
  · simp [hx]

theorem getSet_replInv
    (inv : List (String × List (String × List TableAndColumnName)))
    (t c x y : String) (o n : TableAndColumnName) :
    getSet (FKState.replace_in_inverted_index inv t c o n) x y =
      if x = t then
        (if y = c then sadd (srem (getSet inv t c) o) n else getSet inv t y)
      else getSet inv x y := by
  unfold FKState.replace_in_inverted_index
  rw [getSet_aset2]

theorem lookupA_none_nil {α : Type} (l : List (String × α))
    (h : ∀ c, lookupA l c = none) : l = [] := by
  cases l with
  | nil => rfl
  | cons p t =>
    have := h p.1
    simp [lookupA] at this

theorem lookup2_setfold (S : List TableAndColumnName)
    (f : List (String × List (String × TableAndColumnName)))
    (v : TableAndColumnName) (a b : String) :
    lookup2 (S.foldl (fun f tc => aset2 f tc.1 tc.2 v) f) a b =
      if (a, b) ∈ S then some v else lookup2 f a b := by
  induction S generalizing f with
  | nil => simp
  | cons tc rest ih =>
    obtain ⟨t1, t2⟩ := tc
    simp only [List.foldl_cons]
    rw [ih, lookup2_aset2]
    by_cases hm : (a, b) ∈ rest
    · simp [hm]
    · by_cases ha : a = t1
      · subst ha
        by_cases hb : b = t2
        · subst hb
          simp [hm]
        · simp [hm, hb, List.mem_cons, Prod.mk.injEq]
      · simp [hm, ha, List.mem_cons, Prod.mk.injEq]

theorem lookup2_itemsfold (items : List (String × List TableAndColumnName))
    (f : List (String × List (String × TableAndColumnName)))
    (n : String) (a b : String) :
    lookup2 (items.foldl
      (fun f e => e.2.foldl (fun f tc => aset2 f tc.1 tc.2 (n, e.1)) f) f)
        a b =
      match items.reverse.find? (fun e => decide ((a, b) ∈ e.2)) with
      | some e => some (n, e.1)
      | none => lookup2 f a b := by
  induction items generalizing f with
  | nil => simp
  | cons e rest ih =>
    simp only [List.foldl_cons, List.reverse_cons]
    rw [ih, List.find?_append]
    cases hfind : rest.reverse.find? (fun e => decide ((a, b) ∈ e.2)) with
    | some e1 => simp [hfind]
    | none =>
      simp only [hfind, Option.none_orElse]
      rw [lookup2_setfold]
      by_cases hm : (a, b) ∈ e.2
      · simp [List.find?, hm]
      · simp [List.find?, hm]

theorem mem_entriesfold (entries : List (String × TableAndColumnName))
    (inv : List (String × List (String × List TableAndColumnName)))
    (o n : String) (hne : ¬ o = n) (x y : String) (z : TableAndColumnName) :
    (z ∈ getSet (entries.foldl
        (fun inv e => FKState.replace_in_inverted_index inv e.2.1 e.2.2
          (o, e.1) (n, e.1)) inv) x y) ↔
      ((z.1 = n ∧ (z.2, (x, y)) ∈ entries) ∨
       (z ∈ getSet inv x y ∧ ¬ (z.1 = o ∧ (z.2, (x, y)) ∈ entries))) := by
  obtain ⟨z1, z2⟩ := z
  induction entries generalizing inv with
  | nil => simp
  | cons e rest ih =>
    obtain ⟨c0, d1, d2⟩ := e
    simp only [List.foldl_cons]
    rw [ih]
    have key : ¬ (z1 = o ∧ z1 = n) := fun hc => hne (hc.1.symm.trans hc.2)
    by_cases hx : x = d1
    · subst hx
      by_cases hy : y = d2
      · subst hy
        have hmem : ((z1, z2) ∈ getSet (FKState.replace_in_inverted_index inv
            x y (o, c0) (n, c0)) x y) ↔
            ((z1 = n ∧ z2 = c0) ∨
             ((z1, z2) ∈ getSet inv x y ∧ ¬ (z1 = o ∧ z2 = c0))) := by
          rw [getSet_replInv]
          simp only [ite_true, eq_self_iff_true, mem_sadd, mem_srem,
            Prod.mk.injEq]
        rw [hmem]
        simp only [List.mem_cons, Prod.mk.injEq, and_true]
        tauto
      · have hmem : ((z1, z2) ∈ getSet (FKState.replace_in_inverted_index inv
            x d2 (o, c0) (n, c0)) x y) ↔ ((z1, z2) ∈ getSet inv x y) := by
          rw [getSet_replInv]
          have hy2 : ¬ y = d2 := hy
          simp [hy2]
        rw [hmem]
        simp only [List.mem_cons, Prod.mk.injEq, and_true]
        have hy2 : ¬ y = d2 := hy
        tauto
    · have hmem : ((z1, z2) ∈ getSet (FKState.replace_in_inverted_index inv
          d1 d2 (o, c0) (n, c0)) x y) ↔ ((z1, z2) ∈ getSet inv x y) := by
        rw [getSet_replInv]
        simp [hx]
      rw [hmem]
      simp only [List.mem_cons, Prod.mk.injEq]
      tauto

theorem getSet_touch
    (inv : List (String × List (String × List TableAndColumnName)))
    (k x y : String) : getSet (touch inv k []) x y = getSet inv x y := by
  unfold getSet lookup2
  rw [getInner_touch]

theorem getSet_aset_outer
    (inv : List (String × List (String × List TableAndColumnName)))
    (k : String) (inner : List (String × List TableAndColumnName))
    (x y : String) :
    getSet (aset inv k inner) x y =
      if x = k then (lookupA inner y).getD [] else getSet inv x y := by
  unfold getSet lookup2
  rw [getInner_aset]
  by_cases hx : x = k <;> simp [hx, getInner]

theorem affected_eq
    (inv : List (String × List (String × List TableAndColumnName)))
    (k new : String) :
    getSet (aset inv k (touch (getInner inv k) new [])) k new =
      getSet inv k new := by
  rw [getSet_aset_outer]
  simp only [if_pos rfl]
  rw [lookupA_touch]
  simp only [if_pos rfl, Option.getD_some]
  rfl

theorem renameColumn_frame (s : FKState) (t old new : String)
    (h1 : lookup2 s.forward t old = none)
    (h2 : getSet s.inverse t old = [])
    (h3 : ∀ z ∈ getSet s.inverse t new,
      lookup2 s.forward z.1 z.2 = some (t, new)) :
    ∀ a b, lookup2 (s.rename_column t old new).forward a b =
      lookup2 s.forward a b := by
  intro a b
  unfold FKState.rename_column
  simp only [lookup2_touch, h1, getInner_touch]
  cases hio : lookupA (getInner s.inverse t) old with
  | some origins =>
    have horig : origins = [] := by
      have : getSet s.inverse t old = origins := by
        unfold getSet lookup2
        rw [hio]
        rfl
      rw [h2] at this
      exact this.symm
    subst horig
    simp only [hio]
    rw [lookup2_setfold, affected_eq, getSet_aset_outer]
    simp [lookupA_aset, lookup2_touch]
  | none =>
    simp only [hio]
    rw [lookup2_setfold, affected_eq, getSet_touch]
    by_cases hmem : (a, b) ∈ getSet s.inverse t new
    · rw [if_pos hmem]
      exact (h3 (a, b) hmem).symm
    · rw [if_neg hmem, lookup2_touch]

theorem getSet_touch_inner
    (M : List (String × List (String × List TableAndColumnName)))
    (k y0 x y : String) :
    getSet (aset M k (touch (getInner M k) y0 [])) x y = getSet M x y := by
  rw [getSet_aset_outer]
  by_cases hx : x = k
  · subst hx
    simp only [if_pos rfl]
    rw [lookupA_touch]
    by_cases hy : y = y0
    · subst hy
      simp only [if_pos rfl, Option.getD_some]
      rfl
    · simp only [if_neg hy]
      rfl
  · simp only [if_neg hx]

theorem getSet_inv4
    (inv2 : List (String × List (String × List TableAndColumnName)))
    (k y0 : String) (innerX : List (String × List TableAndColumnName))
    (x y : String) :
    getSet (aset (aset inv2 k innerX) k
        (touch (getInner (aset inv2 k innerX) k) y0 [])) x y =
      if x = k then (lookupA innerX y).getD [] else getSet inv2 x y := by
  have h1 : getInner (aset inv2 k innerX) k = innerX := by
    rw [getInner_aset]
    simp
  rw [h1, getSet_aset_outer]
  by_cases hx : x = k
  · subst hx
    rw [lookupA_touch]
    by_cases hy : y = y0
    · subst hy
      simp
    · simp [hy]
  · simp [hx, getSet_aset_outer]

theorem getD_getInner
    (inv : List (String × List (String × List TableAndColumnName)))
    (k y : String) :
    (lookupA (getInner inv k) y).getD [] = getSet inv k y := rfl

theorem renameColumn_biconsistent (s : FKState) (t old new : String)
    (hInv : BiConsistent s) (hne : ¬ old = new)
    (hfn : lookup2 s.forward t new = none)
    (hin : getSet s.inverse t new = []) :
    BiConsistent (s.rename_column t old new) := by
  have hne2 : ¬ new = old := fun h => hne h.symm
  have hInvIff : ∀ x y u v : String,
      ((x, y) ∈ getSet s.inverse u v) ↔
        lookup2 s.forward x y = some (u, v) := by
    intro x y u v
    exact (hInv x y (u, v)).symm
  intro a b p
  obtain ⟨q1, q2⟩ := p
  unfold FKState.rename_column
  simp only [lookup2_touch, getInner_touch]
  cases hp : lookup2 s.forward t old with
  | none =>
    simp only [hp]
    cases hio : lookupA (getInner s.inverse t) old with
    | none =>
      simp only [hio]
      rw [lookup2_setfold, getSet_touch_inner, getSet_touch_inner,
        getSet_touch, getSet_touch, hin]
      simp only [List.not_mem_nil, if_false]
      rw [lookup2_touch]
      exact hInv a b (q1, q2)
    | some origins =>
      simp only [hio]
      have horig : getSet s.inverse t old = origins := by
        unfold getSet lookup2
        rw [hio]
        rfl
      have hmo : ∀ x y : String, ((x, y) ∈ origins) ↔
          lookup2 s.forward x y = some (t, old) := by
        intro x y
        rw [← horig]
        exact hInvIff x y t old
      rw [lookup2_setfold, getSet_inv4, getSet_inv4]
      simp only [lookupA_aset, lookupA_aerase, getSet_touch, lookup2_touch,
        eq_self_iff_true, if_true, Option.getD_some, getD_getInner]
      by_cases hq1 : q1 = t
      · by_cases hq2n : q2 = new
        · simp only [hq1, hq2n, eq_self_iff_true, if_true, Option.getD_some]
          by_cases hm : (a, b) ∈ origins
          · simp [hm]
          · simp only [hm, if_false, iff_false]
            intro hE
            exact (List.not_mem_nil (a, b)) (hin ▸ (hInv a b (t, new)).mp hE)
        · by_cases hq2o : q2 = old
          · simp only [hq1, hq2n, hq2o, hne, eq_self_iff_true, if_true,
              if_false, Option.getD_none, List.not_mem_nil, iff_false]
            by_cases hm : (a, b) ∈ origins
            · simp only [hm, if_true]
              intro hE
              have h1 := Option.some.inj hE
              exact hne (congrArg Prod.snd h1).symm
            · simp only [hm, if_false]
              intro hE
              exact absurd ((hmo a b).mpr hE) hm
          · simp only [hq1, if_neg hq2n, if_neg hq2o, eq_self_iff_true,
              if_true, getD_getInner]
            by_cases hm : (a, b) ∈ origins
            · simp only [hm, if_true]
              have hab : lookup2 s.forward a b = some (t, old) :=
                (hmo a b).mp hm
              constructor
              · intro hE
                have h1 := Option.some.inj hE
                have h2 : new = q2 := congrArg Prod.snd h1
                exact absurd h2.symm hq2n
              · intro hR
                have h2 := (hInvIff a b t q2).mp hR
                rw [hab] at h2
                have h3 := Option.some.inj h2
                exact absurd (congrArg Prod.snd h3).symm hq2o
            · simp only [hm, if_false]
              exact hInv a b (t, q2)
      · simp only [if_neg hq1]
        by_cases hm : (a, b) ∈ origins
        · simp only [hm, if_true]
          have hab : lookup2 s.forward a b = some (t, old) := (hmo a b).mp hm
          constructor
          · intro hE
            have h1 := Option.some.inj hE
            exact absurd (congrArg Prod.fst h1).symm hq1
          · intro hR
            have h2 := (hInvIff a b q1 q2).mp hR
            rw [hab] at h2
            have h3 := Option.some.inj h2
            exact absurd (congrArg Prod.fst h3).symm hq1
        · simp only [hm, if_false]
          exact hInv a b (q1, q2)
  | some ptd =>
    obtain ⟨u1, u2⟩ := ptd
    simp only [hp]
    have hmem_old : ((t, old) : TableAndColumnName) ∈ getSet s.inverse u1 u2 :=
      (hInv t old (u1, u2)).mp hp
    have hnu : ¬ (u1 = t ∧ u2 = new) := by
      intro ⟨h1, h2⟩
      rw [h1, h2] at hmem_old
      rw [hin] at hmem_old
      exact (List.not_mem_nil _) hmem_old
    have hF : ∀ a2 b2 : String,
        lookup2 (aset (touch s.forward t [])
          t (aset (aerase (getInner s.forward t) old) new (u1, u2))) a2 b2 =
        (if a2 = t then (if b2 = new then some ((u1, u2) : TableAndColumnName)
          else if b2 = old then none else lookup2 s.forward t b2)
         else lookup2 s.forward a2 b2) := by
      intro a2 b2
      unfold lookup2
      rw [getInner_aset]
      by_cases ha : a2 = t
      · simp only [ha, eq_self_iff_true, if_true]
        rw [lookupA_aset]
        by_cases hb : b2 = new
        · simp [hb]
        · rw [if_neg hb, lookupA_aerase]
          by_cases hbo : b2 = old
          · simp [hbo, hne]
          · simp [hbo, hb]
      · simp only [if_neg ha]
        rw [getInner_touch]
    cases hio : lookupA (getInner
        (FKState.replace_in_inverted_index s.inverse u1 u2 (t, old) (t, new))
        t) old with
    | none =>
      simp only [hio]
      rw [lookup2_setfold, getSet_touch_inner, getSet_touch_inner,
        getSet_touch, getSet_touch]
      have haffB : getSet (FKState.replace_in_inverted_index s.inverse u1 u2
          (t, old) (t, new)) t new = [] := by
        rw [getSet_replInv]
        by_cases h1 : t = u1
        · by_cases h2 : new = u2
          · exact absurd ⟨h1.symm, h2.symm⟩ hnu
          · simp only [h1, eq_self_iff_true, if_true, if_neg h2]
            rw [← h1]
            exact hin
        · simp only [if_neg h1]
          exact hin
      rw [haffB]
      simp only [List.not_mem_nil, if_false]
      rw [hF, getSet_replInv]
      by_cases ha : a = t
      · by_cases hbn : b = new
        · simp only [ha, hbn, eq_self_iff_true, if_true]
          by_cases hqu1 : q1 = u1
          · by_cases hqu2 : q2 = u2
            · rw [hqu1, hqu2]
              simp only [eq_self_iff_true, if_true]
              constructor
              · intro _
                exact mem_sadd.mpr (Or.inl rfl)
              · intro _
                exact trivial
            · rw [hqu1]
              simp only [eq_self_iff_true, if_true, if_neg hqu2]
              constructor
              · intro hE
                have h1 := Option.some.inj hE
                exact absurd (congrArg Prod.snd h1).symm hqu2
              · intro hR
                have h2 := (hInvIff t new u1 q2).mp hR
                rw [hfn] at h2
                exact Option.noConfusion h2
          · simp only [if_neg hqu1]
            constructor
            · intro hE
              have h1 := Option.some.inj hE
              exact absurd (congrArg Prod.fst h1).symm hqu1
            · intro hR
              have h2 := (hInvIff t new q1 q2).mp hR
              rw [hfn] at h2
              exact Option.noConfusion h2
        · by_cases hbo : b = old
          · simp only [ha, hbo, hne, eq_self_iff_true, if_true, if_false]
            constructor
            · intro hE
              exact Option.noConfusion hE
            · intro hR
              exfalso
              by_cases hqu1 : q1 = u1
              · rw [if_pos hqu1] at hR
                by_cases hqu2 : q2 = u2
                · rw [if_pos hqu2] at hR
                  rcases mem_sadd.mp hR with h | h
                  · exact hne (congrArg Prod.snd h)
                  · exact (mem_srem.mp h).2 rfl
                · rw [if_neg hqu2] at hR
                  have h2 := (hInvIff t old u1 q2).mp hR
                  rw [hp] at h2
                  have h3 := Option.some.inj h2
                  exact hqu2 (congrArg Prod.snd h3).symm
              · rw [if_neg hqu1] at hR
                have h2 := (hInvIff t old q1 q2).mp hR
                rw [hp] at h2
                have h3 := Option.some.inj h2
                exact hqu1 (congrArg Prod.fst h3).symm
          · simp only [ha, eq_self_iff_true, if_true, if_neg hbn, if_neg hbo]
            by_cases hqu1 : q1 = u1
            · by_cases hqu2 : q2 = u2
              · rw [hqu1, hqu2]
                simp only [eq_self_iff_true, if_true]
                constructor
                · intro hE
                  refine mem_sadd.mpr (Or.inr (mem_srem.mpr ⟨?_, ?_⟩))
                  · exact (hInvIff t b u1 u2).mpr hE
                  · intro hc
                    exact hbo (congrArg Prod.snd hc)
                · intro hR
                  rcases mem_sadd.mp hR with h | h
                  · exact absurd (congrArg Prod.snd h) hbn
                  · exact (hInvIff t b u1 u2).mp (mem_srem.mp h).1
              · rw [hqu1]
                simp only [eq_self_iff_true, if_true, if_neg hqu2]
                exact (hInvIff t b u1 q2).symm
            · simp only [if_neg hqu1]
              exact (hInvIff t b q1 q2).symm
      · simp only [if_neg ha]
        by_cases hqu1 : q1 = u1
        · by_cases hqu2 : q2 = u2
          · rw [hqu1, hqu2]
            simp only [eq_self_iff_true, if_true]
            constructor
            · intro hE
              refine mem_sadd.mpr (Or.inr (mem_srem.mpr ⟨?_, ?_⟩))
              · exact (hInvIff a b u1 u2).mpr hE
              · intro hc
                exact ha (congrArg Prod.fst hc)
            · intro hR
              rcases mem_sadd.mp hR with h | h
              · exact absurd (congrArg Prod.fst h) ha
              · exact (hInvIff a b u1 u2).mp (mem_srem.mp h).1
          · rw [hqu1]
            simp only [eq_self_iff_true, if_true, if_neg hqu2]
            exact (hInvIff a b u1 q2).symm
        · simp only [if_neg hqu1]
          exact (hInvIff a b q1 q2).symm
    | some origins =>
      simp only [hio]
      have horigA : getSet (FKState.replace_in_inverted_index s.inverse u1 u2
          (t, old) (t, new)) t old = origins := by
        unfold getSet lookup2
        rw [hio]
        rfl
      rw [lookup2_setfold, getSet_inv4, getSet_inv4]
      simp only [lookupA_aset, lookupA_aerase, getSet_touch,
        eq_self_iff_true, if_true, Option.getD_some]
      by_cases hLoop : u1 = t ∧ u2 = old
      · obtain ⟨hl1, hl2⟩ := hLoop
        rw [hl1, hl2] at hp hF horigA ⊢
        have hORG : origins =
            sadd (srem (getSet s.inverse t old) (t, old)) (t, new) := by
          rw [← horigA, getSet_replInv]
          simp
        have hmoA : ∀ x y : String, ((x, y) ∈ origins) ↔
            (((x, y) : TableAndColumnName) = (t, new) ∨
             (lookup2 s.forward x y = some (t, old) ∧
              ¬ ((x, y) : TableAndColumnName) = (t, old))) := by
          intro x y
          rw [hORG, mem_sadd, mem_srem]
          constructor
          · intro h
            rcases h with h | ⟨h1, h2⟩
            · exact Or.inl h
            · exact Or.inr ⟨(hInvIff x y t old).mp h1, h2⟩
          · intro h
            rcases h with h | ⟨h1, h2⟩
            · exact Or.inl h
            · exact Or.inr ⟨(hInvIff x y t old).mpr h1, h2⟩
        have hNoNew : ∀ x y : String,
            ¬ lookup2 s.forward x y = some (t, new) := by
          intro x y hxy
          have hmm := (hInvIff x y t new).mpr hxy
          rw [hin] at hmm
          exact (List.not_mem_nil _) hmm
        rw [hF]
        by_cases hq1 : q1 = t
        · by_cases hq2n : q2 = new
          · simp only [hq1, hq2n, eq_self_iff_true, if_true, Option.getD_some]
            by_cases hm : (a, b) ∈ origins
            · simp [hm]
            · simp only [hm, if_false, iff_false]
              intro hE
              by_cases ha : a = t
              · rw [if_pos ha] at hE
                by_cases hbn : b = new
                · rw [if_pos hbn] at hE
                  have h1 := Option.some.inj hE
                  exact hne (congrArg Prod.snd h1)
                · rw [if_neg hbn] at hE
                  by_cases hbo : b = old
                  · rw [if_pos hbo] at hE
                    exact Option.noConfusion hE
                  · rw [if_neg hbo] at hE
                    exact hNoNew t b hE
              · rw [if_neg ha] at hE
                exact hNoNew a b hE
          · by_cases hq2o : q2 = old
            · simp only [hq1, hq2o, hne, eq_self_iff_true, if_true, if_false,
                Option.getD_none, List.not_mem_nil, iff_false]
              intro hE
              by_cases hm : (a, b) ∈ origins
              · rw [if_pos hm] at hE
                have h1 := Option.some.inj hE
                exact hne (congrArg Prod.snd h1).symm
              · rw [if_neg hm] at hE
                by_cases ha : a = t
                · rw [if_pos ha] at hE
                  by_cases hbn : b = new
                  · refine absurd ?_ hm
                    rw [ha, hbn, hORG]
                    exact mem_sadd.mpr (Or.inl rfl)
                  · rw [if_neg hbn] at hE
                    by_cases hbo : b = old
                    · rw [if_pos hbo] at hE
                      exact Option.noConfusion hE
                    · rw [if_neg hbo] at hE
                      refine absurd ((hmoA a b).mpr (Or.inr ⟨?_, ?_⟩)) hm
                      · rw [ha]
                        exact hE
                      · intro hc
                        exact hbo (congrArg Prod.snd hc)
                · rw [if_neg ha] at hE
                  refine absurd ((hmoA a b).mpr (Or.inr ⟨hE, ?_⟩)) hm
                  intro hc
                  exact ha (congrArg Prod.fst hc)
            · simp only [hq1, if_neg hq2n, if_neg hq2o, eq_self_iff_true,
                if_true]
              rw [getD_getInner, getSet_replInv]
              simp only [eq_self_iff_true, if_true, if_neg hq2o]
              constructor
              · intro hE
                by_cases hm : (a, b) ∈ origins
                · rw [if_pos hm] at hE
                  have h1 := Option.some.inj hE
                  exact absurd (congrArg Prod.snd h1).symm hq2n
                · rw [if_neg hm] at hE
                  by_cases ha : a = t
                  · rw [if_pos ha] at hE
                    by_cases hbn : b = new
                    · rw [if_pos hbn] at hE
                      have h1 := Option.some.inj hE
                      exact absurd (congrArg Prod.snd h1).symm hq2o
                    · rw [if_neg hbn] at hE
                      by_cases hbo : b = old
                      · rw [if_pos hbo] at hE
                        exact Option.noConfusion hE
                      · rw [if_neg hbo] at hE
                        refine (hInvIff a b t q2).mpr ?_
                        rw [ha]
                        exact hE
                  · rw [if_neg ha] at hE
                    exact (hInvIff a b t q2).mpr hE
              · intro hR
                have hab := (hInvIff a b t q2).mp hR
                have hm : ¬ (a, b) ∈ origins := by
                  intro hmm
                  rcases (hmoA a b).mp hmm with h | ⟨h1, _⟩
                  · have ha : a = t := congrArg Prod.fst h
                    have hbn : b = new := congrArg Prod.snd h
                    rw [ha, hbn, hfn] at hab
                    exact Option.noConfusion hab
                  · rw [hab] at h1
                    have h4 := Option.some.inj h1
                    exact hq2o (congrArg Prod.snd h4)
                rw [if_neg hm]
                by_cases ha : a = t
                · rw [if_pos ha]
                  by_cases hbn : b = new
                  · exfalso
                    rw [ha, hbn, hfn] at hab
                    exact Option.noConfusion hab
                  · rw [if_neg hbn]
                    by_cases hbo : b = old
                    · exfalso
                      rw [ha, hbo, hp] at hab
                      have h4 := Option.some.inj hab
                      exact hq2o (congrArg Prod.snd h4).symm
                    · rw [if_neg hbo]
                      rw [ha] at hab
                      exact hab
                · rw [if_neg ha]
                  exact hab
        · simp only [if_neg hq1]
          rw [getSet_replInv]
          simp only [if_neg hq1]
          constructor
          · intro hE
            by_cases hm : (a, b) ∈ origins
            · rw [if_pos hm] at hE
              have h1 := Option.some.inj hE
              exact absurd (congrArg Prod.fst h1).symm hq1
            · rw [if_neg hm] at hE
              by_cases ha : a = t
              · rw [if_pos ha] at hE
                by_cases hbn : b = new
                · rw [if_pos hbn] at hE
                  have h1 := Option.some.inj hE
                  exact absurd (congrArg Prod.fst h1).symm hq1
                · rw [if_neg hbn] at hE
                  by_cases hbo : b = old
                  · rw [if_pos hbo] at hE
                    exact Option.noConfusion hE
                  · rw [if_neg hbo] at hE
                    refine (hInvIff a b q1 q2).mpr ?_
                    rw [ha]
                    exact hE
              · rw [if_neg ha] at hE
                exact (hInvIff a b q1 q2).mpr hE
          · intro hR
            have hab := (hInvIff a b q1 q2).mp hR
            have hm : ¬ (a, b) ∈ origins := by
              intro hmm
              rcases (hmoA a b).mp hmm with h | ⟨h1, _⟩
              · have ha : a = t := congrArg Prod.fst h
                have hbn : b = new := congrArg Prod.snd h
                rw [ha, hbn, hfn] at hab
                exact Option.noConfusion hab
              · rw [hab] at h1
                have h4 := Option.some.inj h1
                exact hq1 (congrArg Prod.fst h4)
            rw [if_neg hm]
            by_cases ha : a = t
            · rw [if_pos ha]
              by_cases hbn : b = new
              · exfalso
                rw [ha, hbn, hfn] at hab
                exact Option.noConfusion hab
              · rw [if_neg hbn]
                by_cases hbo : b = old
                · exfalso
                  rw [ha, hbo, hp] at hab
                  have h4 := Option.some.inj hab
                  exact hq1 (congrArg Prod.fst h4).symm
                · rw [if_neg hbo]
                  rw [ha] at hab
                  exact hab
            · rw [if_neg ha]
              exact hab
      · have hORG : origins = getSet s.inverse t old := by
          rw [← horigA, getSet_replInv]
          by_cases h1 : t = u1
          · by_cases h2 : old = u2
            · exact absurd ⟨h1.symm, h2.symm⟩ hLoop
            · simp only [h1, eq_self_iff_true, if_true, if_neg h2]
          · simp only [if_neg h1]
        have hmoA : ∀ x y : String, ((x, y) ∈ origins) ↔
            lookup2 s.forward x y = some (t, old) := by
          intro x y
          rw [hORG]
          exact hInvIff x y t old
        have hNoNew2 : ∀ x y : String,
            ¬ lookup2 s.forward x y = some (t, new) := by
          intro x y hxy
          have hmm := (hInvIff x y t new).mpr hxy
          rw [hin] at hmm
          exact (List.not_mem_nil _) hmm
        rw [hF]
        by_cases hq1 : q1 = t
        · by_cases hq2n : q2 = new
          · simp only [hq1, hq2n, eq_self_iff_true, if_true, Option.getD_some]
            by_cases hm : (a, b) ∈ origins
            · simp [hm]
            · simp only [hm, if_false, iff_false]
              intro hE
              by_cases ha : a = t
              · rw [if_pos ha] at hE
                by_cases hbn : b = new
                · rw [if_pos hbn] at hE
                  have h1 := Option.some.inj hE
                  exact hnu ⟨congrArg Prod.fst h1, congrArg Prod.snd h1⟩
                · rw [if_neg hbn] at hE
                  by_cases hbo : b = old
                  · rw [if_pos hbo] at hE
                    exact Option.noConfusion hE
                  · rw [if_neg hbo] at hE
                    exact hNoNew2 t b hE
              · rw [if_neg ha] at hE
                exact hNoNew2 a b hE
          · by_cases hq2o : q2 = old
            · simp only [hq1, hq2o, hne, eq_self_iff_true, if_true, if_false,
                Option.getD_none, List.not_mem_nil, iff_false]
              intro hE
              by_cases hm : (a, b) ∈ origins
              · rw [if_pos hm] at hE
                have h1 := Option.some.inj hE
                exact hne (congrArg Prod.snd h1).symm
              · rw [if_neg hm] at hE
                by_cases ha : a = t
                · rw [if_pos ha] at hE
                  by_cases hbn : b = new
                  · rw [if_pos hbn] at hE
                    have h1 := Option.some.inj hE
                    exact hLoop ⟨congrArg Prod.fst h1, congrArg Prod.snd h1⟩
                  · rw [if_neg hbn] at hE
                    by_cases hbo : b = old
                    · rw [if_pos hbo] at hE
                      exact Option.noConfusion hE
                    · rw [if_neg hbo] at hE
                      refine absurd ((hmoA a b).mpr ?_) hm
                      rw [ha]
                      exact hE
                · rw [if_neg ha] at hE
                  exact absurd ((hmoA a b).mpr hE) hm
            · simp only [hq1, if_neg hq2n, if_neg hq2o, eq_self_iff_true,
                if_true]
              rw [getD_getInner, getSet_replInv]
              by_cases hsl1 : t = u1
              · by_cases hsl2 : q2 = u2
                · rw [if_pos hsl1, if_pos hsl2]
                  constructor
                  · intro hE
                    by_cases hm : (a, b) ∈ origins
                    · rw [if_pos hm] at hE
                      have h1 := Option.some.inj hE
                      exact absurd (congrArg Prod.snd h1).symm hq2n
                    · rw [if_neg hm] at hE
                      by_cases ha : a = t
                      · rw [if_pos ha] at hE
                        by_cases hbn : b = new
                        · rw [if_pos hbn] at hE
                          refine mem_sadd.mpr (Or.inl ?_)
                          rw [ha, hbn]
                        · rw [if_neg hbn] at hE
                          by_cases hbo : b = old
                          · rw [if_pos hbo] at hE
                            exact Option.noConfusion hE
                          · rw [if_neg hbo] at hE
                            refine mem_sadd.mpr (Or.inr (mem_srem.mpr
                              ⟨?_, ?_⟩))
                            · refine (hInvIff a b u1 u2).mpr ?_
                              rw [ha, ← hsl1, ← hsl2]
                              exact hE
                            · intro hc
                              exact hbo (congrArg Prod.snd hc)
                      · rw [if_neg ha] at hE
                        refine mem_sadd.mpr (Or.inr (mem_srem.mpr ⟨?_, ?_⟩))
                        · refine (hInvIff a b u1 u2).mpr ?_
                          rw [← hsl1, ← hsl2]
                          exact hE
                        · intro hc
                          exact ha (congrArg Prod.fst hc)
                  · intro hR
                    rcases mem_sadd.mp hR with h | h
                    · have ha : a = t := congrArg Prod.fst h
                      have hbn : b = new := congrArg Prod.snd h
                      have hm : ¬ (a, b) ∈ origins := by
                        intro hmm
                        have h2 := (hmoA a b).mp hmm
                        rw [ha, hbn, hfn] at h2
                        exact Option.noConfusion h2
                      rw [if_neg hm, if_pos ha, if_pos hbn, ← hsl1, ← hsl2]
                    · rcases mem_srem.mp h with ⟨h1, h2⟩
                      have hab : lookup2 s.forward a b = some (u1, u2) :=
                        (hInvIff a b u1 u2).mp h1
                      have hm : ¬ (a, b) ∈ origins := by
                        intro hmm
                        have h3 := (hmoA a b).mp hmm
                        rw [hab] at h3
                        have h4 := Option.some.inj h3
                        exact hLoop ⟨congrArg Prod.fst h4,
                          congrArg Prod.snd h4⟩
                      rw [if_neg hm]
                      by_cases ha : a = t
                      · rw [if_pos ha]
                        by_cases hbn : b = new
                        · exfalso
                          rw [ha, hbn, hfn] at hab
                          exact Option.noConfusion hab
                        · rw [if_neg hbn]
                          by_cases hbo : b = old
                          · exfalso
                            exact h2 (by rw [ha, hbo])
                          · rw [if_neg hbo]
                            rw [ha] at hab
                            rw [hab, ← hsl1, ← hsl2]
                      · rw [if_neg ha]
                        rw [hab, ← hsl1, ← hsl2]
                · rw [if_pos hsl1, if_neg hsl2]
                  constructor
                  · intro hE
                    by_cases hm : (a, b) ∈ origins
                    · rw [if_pos hm] at hE
                      have h1 := Option.some.inj hE
                      exact absurd (congrArg Prod.snd h1).symm hq2n
                    · rw [if_neg hm] at hE
                      by_cases ha : a = t
                      · rw [if_pos ha] at hE
                        by_cases hbn : b = new
                        · rw [if_pos hbn] at hE
                          have h1 := Option.some.inj hE
                          exact absurd (congrArg Prod.snd h1).symm hsl2
                        · rw [if_neg hbn] at hE
                          by_cases hbo : b = old
                          · rw [if_pos hbo] at hE
                            exact Option.noConfusion hE
                          · rw [if_neg hbo] at hE
                            refine (hInvIff a b u1 q2).mpr ?_
                            rw [ha, ← hsl1]
                            exact hE
                      · rw [if_neg ha] at hE
                        refine (hInvIff a b u1 q2).mpr ?_
                        rw [← hsl1]
                        exact hE
                  · intro hR
                    have hab := (hInvIff a b u1 q2).mp hR
                    have hm : ¬ (a, b) ∈ origins := by
                      intro hmm
                      have h3 := (hmoA a b).mp hmm
                      rw [hab] at h3
                      have h4 := Option.some.inj h3
                      exact hq2o (congrArg Prod.snd h4)
                    rw [if_neg hm]
                    by_cases ha : a = t
                    · rw [if_pos ha]
                      by_cases hbn : b = new
                      · exfalso
                        rw [ha, hbn, hfn] at hab
                        exact Option.noConfusion hab
                      · rw [if_neg hbn]
                        by_cases hbo : b = old
                        · exfalso
                          rw [ha, hbo, hp] at hab
                          have h4 := Option.some.inj hab
                          exact hsl2 (congrArg Prod.snd h4).symm
                        · rw [if_neg hbo]
                          rw [ha] at hab
                          rw [hab, ← hsl1]
                    · rw [if_neg ha]
                      rw [hab, ← hsl1]
              · rw [if_neg hsl1]
                constructor
                · intro hE
                  by_cases hm : (a, b) ∈ origins
                  · rw [if_pos hm] at hE
                    have h1 := Option.some.inj hE
                    exact absurd (congrArg Prod.snd h1).symm hq2n
                  · rw [if_neg hm] at hE
                    by_cases ha : a = t
                    · rw [if_pos ha] at hE
                      by_cases hbn : b = new
                      · rw [if_pos hbn] at hE
                        have h1 := Option.some.inj hE
                        exact absurd (congrArg Prod.fst h1).symm hsl1
                      · rw [if_neg hbn] at hE
                        by_cases hbo : b = old
                        · rw [if_pos hbo] at hE
                          exact Option.noConfusion hE
                        · rw [if_neg hbo] at hE
                          refine (hInvIff a b t q2).mpr ?_
                          rw [ha]
                          exact hE
                    · rw [if_neg ha] at hE
                      exact (hInvIff a b t q2).mpr hE
                · intro hR
                  have hab := (hInvIff a b t q2).mp hR
                  have hm : ¬ (a, b) ∈ origins := by
                    intro hmm
                    have h3 := (hmoA a b).mp hmm
                    rw [hab] at h3
                    have h4 := Option.some.inj h3
                    exact hq2o (congrArg Prod.snd h4)
                  rw [if_neg hm]
                  by_cases ha : a = t
                  · rw [if_pos ha]
                    by_cases hbn : b = new
                    · exfalso
                      rw [ha, hbn, hfn] at hab
                      exact Option.noConfusion hab
                    · rw [if_neg hbn]
                      by_cases hbo : b = old
                      · exfalso
                        rw [ha, hbo, hp] at hab
                        have h4 := Option.some.inj hab
                        exact hsl1 (congrArg Prod.fst h4).symm
                      · rw [if_neg hbo]
                        rw [ha] at hab
                        exact hab
                  · rw [if_neg ha]
                    exact hab
        · simp only [if_neg hq1]
          rw [getSet_replInv]
          by_cases hsl1 : q1 = u1
          · by_cases hsl2 : q2 = u2
            · rw [if_pos hsl1, if_pos hsl2]
              constructor
              · intro hE
                by_cases hm : (a, b) ∈ origins
                · rw [if_pos hm] at hE
                  have h1 := Option.some.inj hE
                  exact absurd (congrArg Prod.fst h1).symm hq1
                · rw [if_neg hm] at hE
                  by_cases ha : a = t
                  · rw [if_pos ha] at hE
                    by_cases hbn : b = new
                    · rw [if_pos hbn] at hE
                      refine mem_sadd.mpr (Or.inl ?_)
                      rw [ha, hbn]
                    · rw [if_neg hbn] at hE
                      by_cases hbo : b = old
                      · rw [if_pos hbo] at hE
                        exact Option.noConfusion hE
                      · rw [if_neg hbo] at hE
                        refine mem_sadd.mpr (Or.inr (mem_srem.mpr ⟨?_, ?_⟩))
                        · refine (hInvIff a b u1 u2).mpr ?_
                          rw [ha, ← hsl1, ← hsl2]
                          exact hE
                        · intro hc
                          exact hbo (congrArg Prod.snd hc)
                  · rw [if_neg ha] at hE
                    refine mem_sadd.mpr (Or.inr (mem_srem.mpr ⟨?_, ?_⟩))
                    · refine (hInvIff a b u1 u2).mpr ?_
                      rw [← hsl1, ← hsl2]
                      exact hE
                    · intro hc
                      exact ha (congrArg Prod.fst hc)
              · intro hR
                rcases mem_sadd.mp hR with h | h
                · have ha : a = t := congrArg Prod.fst h
                  have hbn : b = new := congrArg Prod.snd h
                  have hm : ¬ (a, b) ∈ origins := by
                    intro hmm
                    have h2 := (hmoA a b).mp hmm
                    rw [ha, hbn, hfn] at h2
                    exact Option.noConfusion h2
                  rw [if_neg hm, if_pos ha, if_pos hbn, ← hsl1, ← hsl2]
                · rcases mem_srem.mp h with ⟨h1, h2⟩
                  have hab : lookup2 s.forward a b = some (u1, u2) :=
                    (hInvIff a b u1 u2).mp h1
                  have hm : ¬ (a, b) ∈ origins := by
                    intro hmm
                    have h3 := (hmoA a b).mp hmm
                    rw [hab] at h3
                    have h4 := Option.some.inj h3
                    exact hq1 (hsl1.trans (congrArg Prod.fst h4))
                  rw [if_neg hm]
                  by_cases ha : a = t
                  · rw [if_pos ha]
                    by_cases hbn : b = new
                    · exfalso
                      rw [ha, hbn, hfn] at hab
                      exact Option.noConfusion hab
                    · rw [if_neg hbn]
                      by_cases hbo : b = old
                      · exfalso
                        exact h2 (by rw [ha, hbo])
                      · rw [if_neg hbo]
                        rw [ha] at hab
                        rw [hab, ← hsl1, ← hsl2]
                  · rw [if_neg ha]
                    rw [hab, ← hsl1, ← hsl2]
            · rw [if_pos hsl1, if_neg hsl2]
              constructor
              · intro hE
                by_cases hm : (a, b) ∈ origins
                · rw [if_pos hm] at hE
                  have h1 := Option.some.inj hE
                  exact absurd (congrArg Prod.fst h1).symm hq1
                · rw [if_neg hm] at hE
                  by_cases ha : a = t
                  · rw [if_pos ha] at hE
                    by_cases hbn : b = new
                    · rw [if_pos hbn] at hE
                      have h1 := Option.some.inj hE
                      exact absurd (congrArg Prod.snd h1).symm hsl2
                    · rw [if_neg hbn] at hE
                      by_cases hbo : b = old
                      · rw [if_pos hbo] at hE
                        exact Option.noConfusion hE
                      · rw [if_neg hbo] at hE
                        refine (hInvIff a b u1 q2).mpr ?_
                        rw [ha, ← hsl1]
                        exact hE
                  · rw [if_neg ha] at hE
                    refine (hInvIff a b u1 q2).mpr ?_
                    rw [← hsl1]
                    exact hE
              · intro hR
                have hab := (hInvIff a b u1 q2).mp hR
                have hm : ¬ (a, b) ∈ origins := by
                  intro hmm
                  have h3 := (hmoA a b).mp hmm
                  rw [hab] at h3
                  have h4 := Option.some.inj h3
                  exact hq1 (hsl1.trans (congrArg Prod.fst h4))
                rw [if_neg hm]
                by_cases ha : a = t
                · rw [if_pos ha]
                  by_cases hbn : b = new
                  · exfalso
                    rw [ha, hbn, hfn] at hab
                    exact Option.noConfusion hab
                  · rw [if_neg hbn]
                    by_cases hbo : b = old
                    · exfalso
                      rw [ha, hbo, hp] at hab
                      have h4 := Option.some.inj hab
                      exact hsl2 (congrArg Prod.snd h4).symm
                    · rw [if_neg hbo]
                      rw [ha] at hab
                      rw [hab, ← hsl1]
                · rw [if_neg ha]
                  rw [hab, ← hsl1]
          · rw [if_neg hsl1]
            constructor
            · intro hE
              by_cases hm : (a, b) ∈ origins
              · rw [if_pos hm] at hE
                have h1 := Option.some.inj hE
                exact absurd (congrArg Prod.fst h1).symm hq1
              · rw [if_neg hm] at hE
                by_cases ha : a = t
                · rw [if_pos ha] at hE
                  by_cases hbn : b = new
                  · rw [if_pos hbn] at hE
                    have h1 := Option.some.inj hE
                    exact absurd (congrArg Prod.fst h1).symm hsl1
                  · rw [if_neg hbn] at hE
                    by_cases hbo : b = old
                    · rw [if_pos hbo] at hE
                      exact Option.noConfusion hE
                    · rw [if_neg hbo] at hE
                      refine (hInvIff a b q1 q2).mpr ?_
                      rw [ha]
                      exact hE
                · rw [if_neg ha] at hE
                  exact (hInvIff a b q1 q2).mpr hE
            · intro hR
              have hab := (hInvIff a b q1 q2).mp hR
              have hm : ¬ (a, b) ∈ origins := by
                intro hmm
                have h3 := (hmoA a b).mp hmm
                rw [hab] at h3
                have h4 := Option.some.inj h3
                exact hq1 (congrArg Prod.fst h4)
              rw [if_neg hm]
              by_cases ha : a = t
              · rw [if_pos ha]
                by_cases hbn : b = new
                · exfalso
                  rw [ha, hbn, hfn] at hab
                  exact Option.noConfusion hab
                · rw [if_neg hbn]
                  by_cases hbo : b = old
                  · exfalso
                    rw [ha, hbo, hp] at hab
                    have h4 := Option.some.inj hab
                    exact hsl1 (congrArg Prod.fst h4).symm
                  · rw [if_neg hbo]
                    rw [ha] at hab
                    exact hab
              · rw [if_neg ha]
                exact hab

theorem lookupA_mem {α : Type} {l : List (String × α)} {k : String} {v : α}
    (h : lookupA l k = some v) : (k, v) ∈ l := by
  induction l with
  | nil => exact Option.noConfusion h
  | cons p t ih =>
    unfold lookupA at h
    by_cases hp : p.1 = k
    · rw [if_pos hp] at h
      have hv := Option.some.inj h
      have hpe : p = (k, v) := by
        obtain ⟨a, b⟩ := p
        simp only at hp hv
        rw [hp, hv]
      rw [← hpe]
      exact List.mem_cons_self _ _
    · rw [if_neg hp] at h
      exact List.mem_cons_of_mem _ (ih h)

theorem mem_lookupA_nodup {α : Type} {l : List (String × α)}
    (hnd : (l.map Prod.fst).Nodup) {k : String} {v : α} (h : (k, v) ∈ l) :
    lookupA l k = some v := by
  induction l with
  | nil => exact absurd h (List.not_mem_nil _)
  | cons p t ih =>
    rw [List.map_cons, List.nodup_cons] at hnd
    rcases List.mem_cons.mp h with h1 | h1
    · rw [← h1]
      unfold lookupA
      rw [if_pos rfl]
    · unfold lookupA
      by_cases hp : p.1 = k
      · exfalso
        apply hnd.1
        rw [hp]
        exact List.mem_map.mpr ⟨(k, v), h1, rfl⟩
      · rw [if_neg hp]
        exact ih hnd.2 h1

theorem keys_aset {α : Type} (l : List (String × α)) (k x : String) (v : α) :
    x ∈ (aset l k v).map Prod.fst ↔ (x ∈ l.map Prod.fst ∨ x = k) := by
  induction l with
  | nil => simp [aset]
  | cons p t ih =>
    unfold aset
    by_cases hp : p.1 = k
    · subst hp
      rw [if_pos rfl]
      simp only [List.map_cons, List.mem_cons]
      tauto
    · rw [if_neg hp]
      simp only [List.map_cons, List.mem_cons]
      rw [ih]
      tauto

theorem nodup_keys_aset {α : Type} (l : List (String × α)) (k : String)
    (v : α) (hnd : (l.map Prod.fst).Nodup) :
    ((aset l k v).map Prod.fst).Nodup := by
  induction l with
  | nil => simp [aset]
  | cons p t ih =>
    rw [List.map_cons, List.nodup_cons] at hnd
    unfold aset
    by_cases hp : p.1 = k
    · rw [if_pos hp]
      rw [List.map_cons, List.nodup_cons]
      exact ⟨by rw [← hp]; exact hnd.1, hnd.2⟩
    · rw [if_neg hp]
      rw [List.map_cons, List.nodup_cons]
      constructor
      · intro hc
        rcases (keys_aset t k p.1 v).mp hc with h | h
        · exact hnd.1 h
        · exact hp h
      · exact ih hnd.2

theorem lookupA_aset2 {α : Type} (l : List (String × List (String × α)))
    (a b x : String) (v : α) :
    lookupA (aset2 l a b v) x =
      if x = a then some (aset (getInner l a) b v) else lookupA l x := by
  unfold aset2
  rw [lookupA_aset]

theorem getInner_aset2 {α : Type} (l : List (String × List (String × α)))
    (a b x : String) (v : α) :
    getInner (aset2 l a b v) x =
      if x = a then aset (getInner l a) b v else getInner l x := by
  unfold getInner
  rw [lookupA_aset2]
  by_cases hx : x = a
  · simp [hx, getInner]
  · simp [hx]

theorem entriesfold_isSome (entries : List (String × TableAndColumnName))
    (inv : List (String × List (String × List TableAndColumnName)))
    (o n : String) (x : String) (h : ¬ lookupA inv x = none) :
    ¬ lookupA (entries.foldl (fun inv e =>
        FKState.replace_in_inverted_index inv e.2.1 e.2.2 (o, e.1) (n, e.1))
        inv) x = none := by
  induction entries generalizing inv with
  | nil => exact h
  | cons e rest ih =>
    simp only [List.foldl_cons]
    apply ih
    unfold FKState.replace_in_inverted_index
    rw [lookupA_aset2]
    by_cases hx : x = e.2.1
    · rw [if_pos hx]
      exact fun hc => Option.noConfusion hc
    · rw [if_neg hx]
      exact h

theorem entriesfold_nodup (entries : List (String × TableAndColumnName))
    (inv : List (String × List (String × List TableAndColumnName)))
    (o n : String) (x : String)
    (h : ((getInner inv x).map Prod.fst).Nodup) :
    ((getInner (entries.foldl (fun inv e =>
        FKState.replace_in_inverted_index inv e.2.1 e.2.2 (o, e.1) (n, e.1))
        inv) x).map Prod.fst).Nodup := by
  induction entries generalizing inv with
  | nil => exact h
  | cons e rest ih =>
    simp only [List.foldl_cons]
    apply ih
    unfold FKState.replace_in_inverted_index
    rw [getInner_aset2]
    by_cases hx : x = e.2.1
    · rw [if_pos hx]
      rw [← hx]
      exact nodup_keys_aset _ _ _ h
    · rw [if_neg hx]
      exact h

theorem setfold_lookupA_none (S : List TableAndColumnName)
    (f : List (String × List (String × TableAndColumnName)))
    (v : TableAndColumnName) (x : String) (h : lookupA f x = none)
    (hS : ∀ tc ∈ S, ¬ tc.1 = x) :
    lookupA (S.foldl (fun f tc => aset2 f tc.1 tc.2 v) f) x = none := by
  induction S generalizing f with
  | nil => exact h
  | cons tc rest ih =>
    simp only [List.foldl_cons]
    apply ih
    · rw [lookupA_aset2]
      have hx : ¬ x = tc.1 := fun hc =>
        hS tc (List.mem_cons_self _ _) hc.symm
      rw [if_neg hx]
      exact h
    · exact fun tc2 hm => hS tc2 (List.mem_cons_of_mem _ hm)

theorem itemsfold_lookupA_none (items : List (String × List TableAndColumnName))
    (f : List (String × List (String × TableAndColumnName)))
    (n : String) (x : String) (h : lookupA f x = none)
    (hS : ∀ e ∈ items, ∀ tc ∈ e.2, ¬ tc.1 = x) :
    lookupA (items.foldl (fun f e => e.2.foldl
      (fun f tc => aset2 f tc.1 tc.2 (n, e.1)) f) f) x = none := by
  induction items generalizing f with
  | nil => exact h
  | cons e rest ih =>
    simp only [List.foldl_cons]
    apply ih
    · exact setfold_lookupA_none _ _ _ _ h (hS e (List.mem_cons_self _ _))
    · exact fun e2 hm => hS e2 (List.mem_cons_of_mem _ hm)

theorem setfold_nodup (S : List TableAndColumnName)
    (f : List (String × List (String × TableAndColumnName)))
    (v : TableAndColumnName) (x : String)
    (h : ((getInner f x).map Prod.fst).Nodup) :
    ((getInner (S.foldl (fun f tc => aset2 f tc.1 tc.2 v) f) x).map
      Prod.fst).Nodup := by
  induction S generalizing f with
  | nil => exact h
  | cons tc rest ih =>
    simp only [List.foldl_cons]
    apply ih
    rw [getInner_aset2]
    by_cases hx : x = tc.1
    · rw [if_pos hx]
      rw [← hx]
      exact nodup_keys_aset _ _ _ h
    · rw [if_neg hx]
      exact h

theorem itemsfold_nodup (items : List (String × List TableAndColumnName))
    (f : List (String × List (String × TableAndColumnName)))
    (n : String) (x : String)
    (h : ((getInner f x).map Prod.fst).Nodup) :
    ((getInner (items.foldl (fun f e => e.2.foldl
      (fun f tc => aset2 f tc.1 tc.2 (n, e.1)) f) f) x).map
        Prod.fst).Nodup := by
  induction items generalizing f with
  | nil => exact h
  | cons e rest ih =>
    simp only [List.foldl_cons]
    apply ih
    exact setfold_nodup _ _ _ _ h

theorem find_eq_of_unique {α : Type} (l : List α) (p : α → Bool) (a : α)
    (hmem : a ∈ l) (hpa : p a = true)
    (hall : ∀ x ∈ l, p x = true → x = a) : l.find? p = some a := by
  induction l with
  | nil => exact absurd hmem (List.not_mem_nil _)
  | cons b t ih =>
    cases hpb : p b with
    | true =>
      rw [List.find?_cons_of_pos _ hpb]
      rw [hall b (List.mem_cons_self _ _) hpb]
    | false =>
      have hpb2 : ¬ p b = true := by
        rw [hpb]
        exact Bool.false_ne_true
      rw [List.find?_cons_of_neg _ hpb2]
      have hmem2 : a ∈ t := by
        rcases List.mem_cons.mp hmem with h | h
        · exfalso
          rw [← h] at hpb
          rw [hpa] at hpb
          exact Bool.noConfusion hpb
        · exact h
      exact ih hmem2 (fun x hx hpx => hall x (List.mem_cons_of_mem _ hx) hpx)

theorem renameTable_tail (s : FKState) (old new : String)
    (fwd2 : List (String × List (String × TableAndColumnName)))
    (hInv : BiConsistent s) (hne : ¬ old = new)
    (hFnew : lookupA s.forward new = none)
    (_hInew : lookupA s.inverse new = none)
    (hIold : ¬ lookupA s.inverse old = none)
    (hndF : ((getInner s.forward old).map Prod.fst).Nodup)
    (hndI : ((getInner s.inverse old).map Prod.fst).Nodup)
    (hf2 : ∀ a b, lookup2 fwd2 a b =
      if a = new then lookup2 s.forward old b
      else if a = old then none else lookup2 s.forward a b)
    (hf2old : lookupA fwd2 old = none)
    (hEnt : getInner fwd2 new = getInner s.forward old) :
    ∃ s2 : FKState,
      (let entries := getInner fwd2 new
       let inv2 := entries.foldl
         (fun inv e => FKState.replace_in_inverted_index inv e.2.1 e.2.2
           (old, e.1) (new, e.1)) s.inverse
       match lookupA inv2 old with
       | none => Except.error (FKState.mk fwd2 inv2)
       | some innerOld =>
           let inv3 := aset (aerase inv2 old) new innerOld
           let items := getInner inv3 new
           let fwd3 := items.foldl
             (fun f e => e.2.foldl
               (fun f tc => aset2 f tc.1 tc.2 (new, e.1)) f) fwd2
           Except.ok (FKState.mk fwd3 inv3)) = Except.ok s2 ∧
      (∀ a b, lookup2 s2.forward a b =
        if a = old then none
        else Option.map (relabelT old new)
          (lookup2 s.forward (if a = new then old else a) b)) ∧
      (∀ x y : String, ∀ z : TableAndColumnName, z ∈ getSet s2.inverse x y ↔
        (¬ x = old ∧ ¬ z.1 = old ∧
          unlabelT old new z ∈
            getSet s.inverse (if x = new then old else x) y)) ∧
      lookupA s2.forward old = none ∧
      lookupA s2.inverse old = none ∧
      (¬ lookupA s2.inverse new = none) ∧
      ((getInner s2.forward new).map Prod.fst).Nodup ∧
      ((getInner s2.inverse new).map Prod.fst).Nodup := by
  have hmem0 : ∀ (c : String) (p : TableAndColumnName),
      ((c, p) ∈ getInner s.forward old) ↔
        lookup2 s.forward old c = some p := by
    intro c p
    constructor
    · intro h
      exact mem_lookupA_nodup hndF h
    · intro h
      exact lookupA_mem h
  have hFnew2 : ∀ c, lookup2 s.forward new c = none := by
    intro c
    unfold lookup2 getInner
    rw [hFnew]
    rfl
  have hInvIff : ∀ x y u v : String,
      ((x, y) ∈ getSet s.inverse u v) ↔
        lookup2 s.forward x y = some (u, v) := by
    intro x y u v
    exact (hInv x y (u, v)).symm
  have hrel : ∀ q1 q2 : String, relabelT old new (q1, q2) =
      if q1 = old then (new, q2) else (q1, q2) := by
    intro q1 q2
    rfl
  have hunl : ∀ z1 z2 : String, unlabelT old new (z1, z2) =
      if z1 = new then (old, z2) else (z1, z2) := by
    intro z1 z2
    rfl
  have hio : ¬ lookupA ((getInner fwd2 new).foldl
      (fun inv e => FKState.replace_in_inverted_index inv e.2.1 e.2.2
        (old, e.1) (new, e.1)) s.inverse) old = none :=
    entriesfold_isSome (getInner fwd2 new) s.inverse old new old hIold
  obtain ⟨innerOld2, hio2⟩ := Option.ne_none_iff_exists'.mp hio
  have hInner2 : getInner ((getInner fwd2 new).foldl
      (fun inv e => FKState.replace_in_inverted_index inv e.2.1 e.2.2
        (old, e.1) (new, e.1)) s.inverse) old = innerOld2 := by
    show (lookupA ((getInner fwd2 new).foldl
      (fun inv e => FKState.replace_in_inverted_index inv e.2.1 e.2.2
        (old, e.1) (new, e.1)) s.inverse) old).getD [] = innerOld2
    rw [hio2]
    rfl
  have hnd2 : (innerOld2.map Prod.fst).Nodup := by
    rw [← hInner2]
    exact entriesfold_nodup (getInner fwd2 new) s.inverse old new old hndI
  have hgd2 : ∀ y : String,
      (lookupA innerOld2 y).getD [] = getSet ((getInner fwd2 new).foldl
      (fun inv e => FKState.replace_in_inverted_index inv e.2.1 e.2.2
        (old, e.1) (new, e.1)) s.inverse) old y := by
    intro y
    rw [← hInner2]
    rfl
  have hmem2 : ∀ (x y z1 z2 : String),
      ((z1, z2) ∈ getSet ((getInner fwd2 new).foldl
      (fun inv e => FKState.replace_in_inverted_index inv e.2.1 e.2.2
        (old, e.1) (new, e.1)) s.inverse) x y) ↔
      (¬ z1 = old ∧
        lookup2 s.forward (if z1 = new then old else z1) z2 =
          some (x, y)) := by
    intro x y z1 z2
    rw [mem_entriesfold (getInner fwd2 new) s.inverse old new hne x y
      (z1, z2), hEnt]
    constructor
    · rintro (⟨hz1, hz2⟩ | ⟨hz1, hz2⟩)
      · have hz1a : z1 = new := hz1
        have hz2a : lookup2 s.forward old z2 = some (x, y) :=
          (hmem0 z2 (x, y)).mp hz2
        constructor
        · rw [hz1a]
          exact fun hc => hne hc.symm
        · rw [if_pos hz1a]
          exact hz2a
      · have hL : lookup2 s.forward z1 z2 = some (x, y) :=
          (hInvIff z1 z2 x y).mp hz1
        by_cases h1 : z1 = new
        · exfalso
          rw [h1, hFnew2 z2] at hL
          exact Option.noConfusion hL
        · by_cases h0 : z1 = old
          · exfalso
            rw [h0] at hL
            exact hz2 ⟨h0, (hmem0 z2 (x, y)).mpr hL⟩
          · constructor
            · exact h0
            · rw [if_neg h1]
              exact hL
    · rintro ⟨h0, hL⟩
      by_cases h1 : z1 = new
      · left
        constructor
        · exact h1
        · rw [if_pos h1] at hL
          exact (hmem0 z2 (x, y)).mpr hL
      · right
        rw [if_neg h1] at hL
        constructor
        · exact (hInvIff z1 z2 x y).mpr hL
        · intro hc
          exact h0 hc.1
  have hset : ∀ e, e ∈ innerOld2 → getSet ((getInner fwd2 new).foldl
      (fun inv e => FKState.replace_in_inverted_index inv e.2.1 e.2.2
        (old, e.1) (new, e.1)) s.inverse) old e.1 = e.2 := by
    intro e he
    have h1 : lookupA innerOld2 e.1 = some e.2 := mem_lookupA_nodup hnd2 he
    have h2 := hgd2 e.1
    rw [h1] at h2
    exact h2.symm
  have hsetex : ∀ (y : String) (ab : TableAndColumnName),
      ab ∈ getSet ((getInner fwd2 new).foldl
      (fun inv e => FKState.replace_in_inverted_index inv e.2.1 e.2.2
        (old, e.1) (new, e.1)) s.inverse) old y →
      ∃ S, lookupA innerOld2 y = some S ∧ ab ∈ S := by
    intro y ab hm
    have h2 := hgd2 y
    cases hS : lookupA innerOld2 y with
    | none =>
      exfalso
      rw [hS] at h2
      rw [← h2] at hm
      exact (List.not_mem_nil _) hm
    | some S =>
      rw [hS] at h2
      refine ⟨S, rfl, ?_⟩
      rw [← h2] at hm
      exact hm
  have hfind_none : ∀ ab : TableAndColumnName,
      (∀ y : String, ¬ ab ∈ getSet ((getInner fwd2 new).foldl
      (fun inv e => FKState.replace_in_inverted_index inv e.2.1 e.2.2
        (old, e.1) (new, e.1)) s.inverse) old y) →
      innerOld2.reverse.find? (fun e => decide (ab ∈ e.2)) = none := by
    intro ab hno
    rw [List.find?_eq_none]
    intro e he hpe
    have he2 : e ∈ innerOld2 := List.mem_reverse.mp he
    have h3 : ab ∈ e.2 := of_decide_eq_true hpe
    rw [← hset e he2] at h3
    exact hno e.1 h3
  have hfind_some : ∀ (ab : TableAndColumnName) (y0 : String),
      ab ∈ getSet ((getInner fwd2 new).foldl
      (fun inv e => FKState.replace_in_inverted_index inv e.2.1 e.2.2
        (old, e.1) (new, e.1)) s.inverse) old y0 →
      ∃ S0, lookupA innerOld2 y0 = some S0 ∧
        innerOld2.reverse.find? (fun e => decide (ab ∈ e.2)) =
          some (y0, S0) := by
    intro ab y0 hm
    obtain ⟨S0, hS0, habS0⟩ := hsetex y0 ab hm
    refine ⟨S0, hS0, ?_⟩
    apply find_eq_of_unique
    · exact List.mem_reverse.mpr (lookupA_mem hS0)
    · exact decide_eq_true habS0
    · intro e he hpe
      have he2 : e ∈ innerOld2 := List.mem_reverse.mp he
      have h3 : ab ∈ e.2 := of_decide_eq_true hpe
      have h4 : ab ∈ getSet ((getInner fwd2 new).foldl
      (fun inv e => FKState.replace_in_inverted_index inv e.2.1 e.2.2
        (old, e.1) (new, e.1)) s.inverse) old e.1 := by
        rw [hset e he2]
        exact h3
      obtain ⟨a0, b0⟩ := ab
      have h5 := (hmem2 old e.1 a0 b0).mp h4
      have h6 := (hmem2 old y0 a0 b0).mp hm
      have h7 := h5.2
      rw [h6.2] at h7
      have h8 := Option.some.inj h7
      have h9 : y0 = e.1 := congrArg Prod.snd h8
      have h10 : lookupA innerOld2 e.1 = some e.2 :=
        mem_lookupA_nodup hnd2 he2
      rw [← h9, hS0] at h10
      have h11 := Option.some.inj h10
      obtain ⟨e1, e2⟩ := e
      have h9a : y0 = e1 := h9
      have h11a : S0 = e2 := h11
      rw [← h9a, ← h11a]
  have hgs3 : ∀ x y : String, getSet (aset (aerase ((getInner fwd2 new).foldl
      (fun inv e => FKState.replace_in_inverted_index inv e.2.1 e.2.2
        (old, e.1) (new, e.1)) s.inverse) old) new innerOld2) x y =
      if x = new then getSet ((getInner fwd2 new).foldl
      (fun inv e => FKState.replace_in_inverted_index inv e.2.1 e.2.2
        (old, e.1) (new, e.1)) s.inverse) old y
      else if x = old then [] else getSet ((getInner fwd2 new).foldl
      (fun inv e => FKState.replace_in_inverted_index inv e.2.1 e.2.2
        (old, e.1) (new, e.1)) s.inverse) x y := by
    intro x y
    show (lookupA (getInner (aset (aerase ((getInner fwd2 new).foldl
      (fun inv e => FKState.replace_in_inverted_index inv e.2.1 e.2.2
        (old, e.1) (new, e.1)) s.inverse) old) new innerOld2) x) y).getD [] = _
    rw [getInner_aset]
    by_cases hx : x = new
    · rw [if_pos hx, if_pos hx]
      exact hgd2 y
    · rw [if_neg hx, if_neg hx, getInner_aerase]
      by_cases ho : x = old
      · rw [if_pos ho, if_pos ho]
        rfl
      · rw [if_neg ho, if_neg ho]
        rfl
  have hitems : getInner (aset (aerase ((getInner fwd2 new).foldl
      (fun inv e => FKState.replace_in_inverted_index inv e.2.1 e.2.2
        (old, e.1) (new, e.1)) s.inverse) old) new innerOld2) new = innerOld2 := by
    rw [getInner_aset, if_pos rfl]
  refine ⟨FKState.mk (((getInner (aset (aerase ((getInner fwd2 new).foldl
      (fun inv e => FKState.replace_in_inverted_index inv e.2.1 e.2.2
        (old, e.1) (new, e.1)) s.inverse) old) new innerOld2) new).foldl
      (fun f e => e.2.foldl (fun f tc => aset2 f tc.1 tc.2 (new, e.1)) f)
      fwd2)) ((aset (aerase ((getInner fwd2 new).foldl
      (fun inv e => FKState.replace_in_inverted_index inv e.2.1 e.2.2
        (old, e.1) (new, e.1)) s.inverse) old) new innerOld2)), ?_, ?_, ?_, ?_, ?_, ?_,
    ?_, ?_⟩
  · simp only [hio2]
  · intro a b
    show lookup2 ((getInner (aset (aerase ((getInner fwd2 new).foldl
      (fun inv e => FKState.replace_in_inverted_index inv e.2.1 e.2.2
        (old, e.1) (new, e.1)) s.inverse) old) new innerOld2) new).foldl
      (fun f e => e.2.foldl (fun f tc => aset2 f tc.1 tc.2 (new, e.1)) f)
      fwd2) a b = _
    rw [hitems, lookup2_itemsfold]
    cases hL : lookup2 s.forward (if a = new then old else a) b with
    | none =>
      have hno : ∀ y : String, ¬ (a, b) ∈ getSet ((getInner fwd2 new).foldl
      (fun inv e => FKState.replace_in_inverted_index inv e.2.1 e.2.2
        (old, e.1) (new, e.1)) s.inverse) old y := by
        intro y hc
        have h5 := (hmem2 old y a b).mp hc
        rw [hL] at h5
        exact Option.noConfusion h5.2
      rw [hfind_none (a, b) hno]
      show lookup2 fwd2 a b = _
      rw [hf2 a b]
      by_cases ho : a = old
      · have hn2 : ¬ a = new := by
          rw [ho]
          exact hne
        simp only [if_neg hn2, if_pos ho]
      · by_cases hn : a = new
        · rw [if_pos hn] at hL
          simp only [if_pos hn, if_neg ho, hL, Option.map_none']
        · rw [if_neg hn] at hL
          simp only [if_neg hn, if_neg ho, hL, Option.map_none']
    | some q =>
      obtain ⟨q1, q2⟩ := q
      by_cases hq1 : q1 = old
      · by_cases ho : a = old
        · have hno : ∀ y : String, ¬ (a, b) ∈ getSet ((getInner fwd2 new).foldl
      (fun inv e => FKState.replace_in_inverted_index inv e.2.1 e.2.2
        (old, e.1) (new, e.1)) s.inverse) old y := by
            intro y hc
            exact ((hmem2 old y a b).mp hc).1 ho
          rw [hfind_none (a, b) hno]
          show lookup2 fwd2 a b = _
          rw [hf2 a b]
          have hn2 : ¬ a = new := by
            rw [ho]
            exact hne
          simp only [if_neg hn2, if_pos ho]
        · have hm : (a, b) ∈ getSet ((getInner fwd2 new).foldl
      (fun inv e => FKState.replace_in_inverted_index inv e.2.1 e.2.2
        (old, e.1) (new, e.1)) s.inverse) old q2 := by
            rw [hmem2 old q2 a b]
            refine ⟨ho, ?_⟩
            rw [hL, hq1]
          obtain ⟨S0, hS0, hfs⟩ := hfind_some (a, b) q2 hm
          rw [hfs]
          show some (new, q2) = _
          rw [if_neg ho]
          show some (new, q2) = some (relabelT old new (q1, q2))
          rw [hrel q1 q2, if_pos hq1]
      · have hno : ∀ y : String, ¬ (a, b) ∈ getSet ((getInner fwd2 new).foldl
      (fun inv e => FKState.replace_in_inverted_index inv e.2.1 e.2.2
        (old, e.1) (new, e.1)) s.inverse) old y := by
          intro y hc
          have h5 := (hmem2 old y a b).mp hc
          rw [hL] at h5
          have h8 := Option.some.inj h5.2
          exact hq1 (congrArg Prod.fst h8)
        rw [hfind_none (a, b) hno]
        show lookup2 fwd2 a b = _
        rw [hf2 a b]
        by_cases ho : a = old
        · have hn2 : ¬ a = new := by
            rw [ho]
            exact hne
          simp only [if_neg hn2, if_pos ho]
        · by_cases hn : a = new
          · rw [if_pos hn] at hL
            simp only [if_pos hn, if_neg ho, hL, Option.map_some']
            rw [hrel q1 q2, if_neg hq1]
          · rw [if_neg hn] at hL
            simp only [if_neg hn, if_neg ho, hL, Option.map_some']
            rw [hrel q1 q2, if_neg hq1]
  · intro x y z
    obtain ⟨z1, z2⟩ := z
    show (z1, z2) ∈ getSet (aset (aerase ((getInner fwd2 new).foldl
      (fun inv e => FKState.replace_in_inverted_index inv e.2.1 e.2.2
        (old, e.1) (new, e.1)) s.inverse) old) new innerOld2) x y ↔ _
    rw [hgs3 x y]
    by_cases hx : x = new
    · rw [if_pos hx]
      rw [hmem2 old y z1 z2]
      constructor
      · rintro ⟨h0, hL⟩
        refine ⟨?_, h0, ?_⟩
        · rw [hx]
          exact fun hc => hne hc.symm
        · rw [if_pos hx, hunl z1 z2]
          by_cases h1 : z1 = new
          · rw [if_pos h1]
            rw [if_pos h1] at hL
            exact (hInvIff old z2 old y).mpr hL
          · rw [if_neg h1]
            rw [if_neg h1] at hL
            exact (hInvIff z1 z2 old y).mpr hL
      · rintro ⟨hx0, h0, hm3⟩
        refine ⟨h0, ?_⟩
        rw [if_pos hx, hunl z1 z2] at hm3
        by_cases h1 : z1 = new
        · rw [if_pos h1] at hm3
          rw [if_pos h1]
          exact (hInvIff old z2 old y).mp hm3
        · rw [if_neg h1] at hm3
          rw [if_neg h1]
          exact (hInvIff z1 z2 old y).mp hm3
    · rw [if_neg hx]
      by_cases ho : x = old
      · rw [if_pos ho]
        constructor
        · intro hm3
          exact absurd hm3 (List.not_mem_nil _)
        · rintro ⟨hx0, h1, h2⟩
          exact absurd ho hx0
      · rw [if_neg ho]
        rw [hmem2 x y z1 z2]
        constructor
        · rintro ⟨h0, hL⟩
          refine ⟨ho, h0, ?_⟩
          rw [if_neg hx, hunl z1 z2]
          by_cases h1 : z1 = new
          · rw [if_pos h1]
            rw [if_pos h1] at hL
            exact (hInvIff old z2 x y).mpr hL
          · rw [if_neg h1]
            rw [if_neg h1] at hL
            exact (hInvIff z1 z2 x y).mpr hL
        · rintro ⟨hx0, h0, hm3⟩
          refine ⟨h0, ?_⟩
          rw [if_neg hx, hunl z1 z2] at hm3
          by_cases h1 : z1 = new
          · rw [if_pos h1] at hm3
            rw [if_pos h1]
            exact (hInvIff old z2 x y).mp hm3
          · rw [if_neg h1] at hm3
            rw [if_neg h1]
            exact (hInvIff z1 z2 x y).mp hm3
  · show lookupA ((getInner (aset (aerase ((getInner fwd2 new).foldl
      (fun inv e => FKState.replace_in_inverted_index inv e.2.1 e.2.2
        (old, e.1) (new, e.1)) s.inverse) old) new innerOld2) new).foldl
      (fun f e => e.2.foldl (fun f tc => aset2 f tc.1 tc.2 (new, e.1)) f)
      fwd2) old = none
    rw [hitems]
    apply itemsfold_lookupA_none
    · exact hf2old
    · intro e he tc htc
      have h4 : tc ∈ getSet ((getInner fwd2 new).foldl
      (fun inv e => FKState.replace_in_inverted_index inv e.2.1 e.2.2
        (old, e.1) (new, e.1)) s.inverse) old e.1 := by
        rw [hset e he]
        exact htc
      obtain ⟨t1, t2⟩ := tc
      exact ((hmem2 old e.1 t1 t2).mp h4).1
  · show lookupA (aset (aerase ((getInner fwd2 new).foldl
      (fun inv e => FKState.replace_in_inverted_index inv e.2.1 e.2.2
        (old, e.1) (new, e.1)) s.inverse) old) new innerOld2) old = none
    rw [lookupA_aset, if_neg hne, lookupA_aerase, if_pos rfl]
  · show ¬ lookupA (aset (aerase ((getInner fwd2 new).foldl
      (fun inv e => FKState.replace_in_inverted_index inv e.2.1 e.2.2
        (old, e.1) (new, e.1)) s.inverse) old) new innerOld2) new = none
    rw [lookupA_aset, if_pos rfl]
    exact fun hc => Option.noConfusion hc
  · show ((getInner ((getInner (aset (aerase ((getInner fwd2 new).foldl
      (fun inv e => FKState.replace_in_inverted_index inv e.2.1 e.2.2
        (old, e.1) (new, e.1)) s.inverse) old) new innerOld2) new).foldl
      (fun f e => e.2.foldl (fun f tc => aset2 f tc.1 tc.2 (new, e.1)) f)
      fwd2) new).map Prod.fst).Nodup
    rw [hitems]
    apply itemsfold_nodup
    rw [hEnt]
    exact hndF
  · show ((getInner (aset (aerase ((getInner fwd2 new).foldl
      (fun inv e => FKState.replace_in_inverted_index inv e.2.1 e.2.2
        (old, e.1) (new, e.1)) s.inverse) old) new innerOld2) new).map Prod.fst).Nodup
    rw [hitems]
    exact hnd2

theorem renameTable_char (s : FKState) (old new : String)
    (hInv : BiConsistent s) (hne : ¬ old = new)
    (hFnew : lookupA s.forward new = none)
    (hInew : lookupA s.inverse new = none)
    (hIold : ¬ lookupA s.inverse old = none)
    (hndF : ((getInner s.forward old).map Prod.fst).Nodup)
    (hndI : ((getInner s.inverse old).map Prod.fst).Nodup) :
    ∃ s2 : FKState,
      FKState.rename_table s old new = Except.ok s2 ∧
      (∀ a b, lookup2 s2.forward a b =
        if a = old then none
        else Option.map (relabelT old new)
          (lookup2 s.forward (if a = new then old else a) b)) ∧
      (∀ x y : String, ∀ z : TableAndColumnName, z ∈ getSet s2.inverse x y ↔
        (¬ x = old ∧ ¬ z.1 = old ∧
          unlabelT old new z ∈
            getSet s.inverse (if x = new then old else x) y)) ∧
      lookupA s2.forward old = none ∧
      lookupA s2.inverse old = none ∧
      (¬ lookupA s2.inverse new = none) ∧
      ((getInner s2.forward new).map Prod.fst).Nodup ∧
      ((getInner s2.inverse new).map Prod.fst).Nodup := by
  cases hF0 : lookupA s.forward old with
  | some innerF =>
    have hE : getInner s.forward old = innerF := by
      show (lookupA s.forward old).getD [] = innerF
      rw [hF0]
      rfl
    have hf2 : ∀ a b,
        lookup2 (touch (aset (aerase s.forward old) new innerF) new []) a b =
        if a = new then lookup2 s.forward old b
        else if a = old then none else lookup2 s.forward a b := by
      intro a b
      rw [lookup2_touch]
      unfold lookup2
      rw [getInner_aset]
      by_cases hn : a = new
      · rw [if_pos hn, if_pos hn, hE]
      · rw [if_neg hn, if_neg hn, getInner_aerase]
        by_cases ho : a = old
        · rw [if_pos ho, if_pos ho]
          rfl
        · rw [if_neg ho, if_neg ho]
    have hf2old :
        lookupA (touch (aset (aerase s.forward old) new innerF) new [])
          old = none := by
      rw [lookupA_touch, if_neg hne, lookupA_aset, if_neg hne,
        lookupA_aerase, if_pos rfl]
    have hEnt :
        getInner (touch (aset (aerase s.forward old) new innerF) new [])
          new = getInner s.forward old := by
      rw [getInner_touch, getInner_aset, if_pos rfl, hE]
    unfold FKState.rename_table
    simp only [hF0]
    exact renameTable_tail s old new _ hInv hne hFnew hInew hIold hndF hndI
      hf2 hf2old hEnt
  | none =>
    have hE0 : getInner s.forward old = [] := by
      show (lookupA s.forward old).getD [] = []
      rw [hF0]
      rfl
    have hf2 : ∀ a b, lookup2 (touch s.forward new []) a b =
        if a = new then lookup2 s.forward old b
        else if a = old then none else lookup2 s.forward a b := by
      intro a b
      rw [lookup2_touch]
      by_cases hn : a = new
      · rw [if_pos hn, hn]
        have h1 : lookup2 s.forward new b = none := by
          unfold lookup2 getInner
          rw [hFnew]
          rfl
        have h2 : lookup2 s.forward old b = none := by
          unfold lookup2
          rw [hE0]
          rfl
        rw [h1, h2]
      · rw [if_neg hn]
        by_cases ho : a = old
        · rw [if_pos ho, ho]
          unfold lookup2
          rw [hE0]
          rfl
        · rw [if_neg ho]
    have hf2old : lookupA (touch s.forward new []) old = none := by
      rw [lookupA_touch, if_neg hne]
      exact hF0
    have hEnt : getInner (touch s.forward new []) new =
        getInner s.forward old := by
      rw [getInner_touch, hE0]
      show (lookupA s.forward new).getD [] = []
      rw [hFnew]
      rfl
    unfold FKState.rename_table
    simp only [hF0]
    exact renameTable_tail s old new _ hInv hne hFnew hInew hIold hndF hndI
      hf2 hf2old hEnt

theorem addForeignKey_biconsistent (s : FKState)
    (ot oc dt dc : String) (hInv : BiConsistent s)
    (hfresh : lookup2 s.forward ot oc = none) :
    BiConsistent (FKState.add_foreign_key s ot oc dt dc) := by
  intro t c p
  obtain ⟨p1, p2⟩ := p
  unfold FKState.add_foreign_key
  rw [lookup2_aset2]
  have hmem : ((t, c) ∈ getSet (aset2 s.inverse dt dc
      (sadd (getSet s.inverse dt dc) (ot, oc))) p1 p2) ↔
      (if p1 = dt ∧ p2 = dc then
        ((t, c) ∈ sadd (getSet s.inverse dt dc) (ot, oc))
      else ((t, c) ∈ getSet s.inverse p1 p2)) := by
    rw [getSet_aset2]
    by_cases h1 : p1 = dt
    · by_cases h2 : p2 = dc
      · have hand : p1 = dt ∧ p2 = dc := ⟨h1, h2⟩
        rw [if_pos h1, if_pos h2, if_pos hand]
      · have hand : ¬ (p1 = dt ∧ p2 = dc) := fun hh => h2 hh.2
        rw [if_pos h1, if_neg h2, if_neg hand, h1]
    · have hand : ¬ (p1 = dt ∧ p2 = dc) := fun hh => h1 hh.1
      rw [if_neg h1, if_neg hand]
  rw [hmem]
  by_cases ht : t = ot
  · rw [if_pos ht]
    by_cases hc2 : c = oc
    · rw [if_pos hc2]
      by_cases hp : p1 = dt ∧ p2 = dc
      · rw [if_pos hp]
        constructor
        · intro h1
          exact mem_sadd.mpr (Or.inl (by rw [ht, hc2]))
        · intro h1
          rw [hp.1, hp.2]
      · rw [if_neg hp]
        constructor
        · intro h1
          exfalso
          have h2 := Option.some.inj h1
          exact hp ⟨(congrArg Prod.fst h2).symm,
            (congrArg Prod.snd h2).symm⟩
        · intro h1
          exfalso
          have h2 := (hInv t c (p1, p2)).mpr h1
          rw [ht, hc2, hfresh] at h2
          exact Option.noConfusion h2
    · rw [if_neg hc2]
      by_cases hp : p1 = dt ∧ p2 = dc
      · rw [if_pos hp]
        constructor
        · intro h1
          refine mem_sadd.mpr (Or.inr ?_)
          rw [hp.1, hp.2] at h1
          rw [ht]
          exact (hInv ot c (dt, dc)).mp h1
        · intro h1
          rcases mem_sadd.mp h1 with h2 | h2
          · exfalso
            exact hc2 (congrArg Prod.snd h2)
          · rw [hp.1, hp.2]
            rw [ht] at h2
            exact (hInv ot c (dt, dc)).mpr h2
      · rw [if_neg hp]
        rw [← ht]
        exact hInv t c (p1, p2)
  · rw [if_neg ht]
    by_cases hp : p1 = dt ∧ p2 = dc
    · rw [if_pos hp]
      constructor
      · intro h1
        refine mem_sadd.mpr (Or.inr ?_)
        rw [hp.1, hp.2] at h1
        exact (hInv t c (dt, dc)).mp h1
      · intro h1
        rcases mem_sadd.mp h1 with h2 | h2
        · exfalso
          exact ht (congrArg Prod.fst h2)
        · rw [hp.1, hp.2]
          exact (hInv t c (dt, dc)).mpr h2
    · rw [if_neg hp]
      exact hInv t c (p1, p2)

theorem renameTable_biconsistent (s : FKState) (old new : String)
    (hInv : BiConsistent s) (hne : ¬ old = new)
    (hFnew : lookupA s.forward new = none)
    (hInew : lookupA s.inverse new = none)
    (hIold : ¬ lookupA s.inverse old = none)
    (hndF : ((getInner s.forward old).map Prod.fst).Nodup)
    (hndI : ((getInner s.inverse old).map Prod.fst).Nodup)
    (s2 : FKState) (hok : FKState.rename_table s old new = Except.ok s2) :
    BiConsistent s2 := by
  obtain ⟨s3, hok3, hfwd, hinv, hrest⟩ :=
    renameTable_char s old new hInv hne hFnew hInew hIold hndF hndI
  rw [hok3] at hok
  have hs : s3 = s2 := Except.ok.inj hok
  rw [← hs]
  have hInew2 : ∀ c, getSet s.inverse new c = [] := by
    intro c
    show (lookupA (getInner s.inverse new) c).getD [] = []
    show (lookupA ((lookupA s.inverse new).getD []) c).getD [] = []
    rw [hInew]
    rfl
  have hDnew : ∀ a b p1 p2, lookup2 s.forward a b = some (p1, p2) →
      ¬ p1 = new := by
    intro a b p1 p2 hL hp1
    have h1 := (hInv a b (p1, p2)).mp hL
    rw [hp1] at h1
    rw [hInew2 p2] at h1
    exact (List.not_mem_nil _) h1
  intro t c p
  obtain ⟨p1, p2⟩ := p
  rw [hfwd t c, hinv p1 p2 (t, c)]
  by_cases ht : t = old
  · rw [if_pos ht]
    constructor
    · intro h1
      exact absurd h1 (fun hc => Option.noConfusion hc)
    · rintro ⟨hp1, hto, hm⟩
      exact absurd ht hto
  · rw [if_neg ht]
    have hunl : unlabelT old new (t, c) =
        if t = new then (old, c) else (t, c) := rfl
    rw [hunl]
    cases hL : lookup2 s.forward (if t = new then old else t) c with
    | none =>
      constructor
      · intro h1
        exact Option.noConfusion h1
      · rintro ⟨hp1, hto, hm⟩
        exfalso
        by_cases h1 : t = new
        · rw [if_pos h1] at hm
          have h2 := (hInv old c ((if p1 = new then old else p1), p2)).mpr hm
          rw [if_pos h1] at hL
          rw [hL] at h2
          exact Option.noConfusion h2
        · rw [if_neg h1] at hm
          have h2 := (hInv t c ((if p1 = new then old else p1), p2)).mpr hm
          rw [if_neg h1] at hL
          rw [hL] at h2
          exact Option.noConfusion h2
    | some q =>
      obtain ⟨q1, q2⟩ := q
      have hq1new : ¬ q1 = new := hDnew _ _ _ _ hL
      have hrelq : relabelT old new (q1, q2) =
          if q1 = old then (new, q2) else (q1, q2) := rfl
      rw [Option.map_some', hrelq]
      by_cases hq1 : q1 = old
      · rw [if_pos hq1]
        constructor
        · intro h1
          have h2 := Option.some.inj h1
          have hp1 : p1 = new := (congrArg Prod.fst h2).symm
          have hp2 : p2 = q2 := (congrArg Prod.snd h2).symm
          refine ⟨?_, ht, ?_⟩
          · rw [hp1]
            exact fun hc => hne hc.symm
          · rw [if_pos hp1, hp2]
            by_cases h3 : t = new
            · rw [if_pos h3]
              rw [if_pos h3] at hL
              rw [hq1] at hL
              exact (hInv old c (old, q2)).mp hL
            · rw [if_neg h3]
              rw [if_neg h3] at hL
              rw [hq1] at hL
              exact (hInv t c (old, q2)).mp hL
        · rintro ⟨hp1n, hto, hm⟩
          by_cases hp1 : p1 = new
          · rw [if_pos hp1] at hm
            have h2 : lookup2 s.forward (if t = new then old else t) c =
                some (old, p2) := by
              by_cases h3 : t = new
              · rw [if_pos h3] at hm
                rw [if_pos h3]
                exact (hInv old c (old, p2)).mpr hm
              · rw [if_neg h3] at hm
                rw [if_neg h3]
                exact (hInv t c (old, p2)).mpr hm
            rw [hL] at h2
            have h3 := Option.some.inj h2
            have h4 : q2 = p2 := congrArg Prod.snd h3
            rw [hp1, h4]
          · rw [if_neg hp1] at hm
            exfalso
            have h2 : lookup2 s.forward (if t = new then old else t) c =
                some (p1, p2) := by
              by_cases h3 : t = new
              · rw [if_pos h3] at hm
                rw [if_pos h3]
                exact (hInv old c (p1, p2)).mpr hm
              · rw [if_neg h3] at hm
                rw [if_neg h3]
                exact (hInv t c (p1, p2)).mpr hm
            rw [hL] at h2
            have h3 := Option.some.inj h2
            have h4 : p1 = q1 := (congrArg Prod.fst h3).symm
            rw [hq1] at h4
            exact hp1n h4
      · rw [if_neg hq1]
        constructor
        · intro h1
          have h2 := Option.some.inj h1
          have hp1 : p1 = q1 := (congrArg Prod.fst h2).symm
          have hp2 : p2 = q2 := (congrArg Prod.snd h2).symm
          have hp1n : ¬ p1 = new := by
            rw [hp1]
            exact hq1new
          have hp1o : ¬ p1 = old := by
            rw [hp1]
            exact hq1
          refine ⟨hp1o, ht, ?_⟩
          rw [if_neg hp1n, hp1, hp2]
          by_cases h3 : t = new
          · rw [if_pos h3]
            rw [if_pos h3] at hL
            exact (hInv old c (q1, q2)).mp hL
          · rw [if_neg h3]
            rw [if_neg h3] at hL
            exact (hInv t c (q1, q2)).mp hL
        · rintro ⟨hp1n, hto, hm⟩
          by_cases hp1 : p1 = new
          · rw [if_pos hp1] at hm
            exfalso
            have h2 : lookup2 s.forward (if t = new then old else t) c =
                some (old, p2) := by
              by_cases h3 : t = new
              · rw [if_pos h3] at hm
                rw [if_pos h3]
                exact (hInv old c (old, p2)).mpr hm
              · rw [if_neg h3] at hm
                rw [if_neg h3]
                exact (hInv t c (old, p2)).mpr hm
            rw [hL] at h2
            have h3 := Option.some.inj h2
            exact hq1 (congrArg Prod.fst h3)
          · rw [if_neg hp1] at hm
            have h2 : lookup2 s.forward (if t = new then old else t) c =
                some (p1, p2) := by
              by_cases h3 : t = new
              · rw [if_pos h3] at hm
                rw [if_pos h3]
                exact (hInv old c (p1, p2)).mpr hm
              · rw [if_neg h3] at hm
                rw [if_neg h3]
                exact (hInv t c (p1, p2)).mpr hm
            rw [hL] at h2
            have h3 := Option.some.inj h2
            rw [h3]

theorem biConsistent_empty : BiConsistent FKState.empty := by
  intro t c p
  constructor
  · intro h
    exact Option.noConfusion h
  · intro h
    exact absurd h (List.not_mem_nil _)

theorem biConsistent_one : BiConsistent fkOneRel :=
  addForeignKey_biconsistent FKState.empty "A" "B" "T" "NEW"
    biConsistent_empty rfl

/-- C1 (corrected): bidirectional consistency of the foreign-key index is
preserved by `add_foreign_key` when the origin column holds no prior
relation, by `rename_column` when the new column name is unused at the
table in both views, and by every successful `rename_table` whose new
table name is absent from both views and whose old name has an
inverted-index entry with duplicate-free inner dictionaries.  The
unrestricted claim of the specification is refuted by
`claim_C1_counterexample`: an overwriting `add_foreign_key` leaves a stale
member in the inverse view. -/
theorem claim_C1 :
    (∀ s ot oc dt dc, BiConsistent s →
      lookup2 s.forward ot oc = none →
      BiConsistent (FKState.add_foreign_key s ot oc dt dc)) ∧
    (∀ s t old new, BiConsistent s → ¬ old = new →
      lookup2 s.forward t new = none →
      getSet s.inverse t new = [] →
      BiConsistent (FKState.rename_column s t old new)) ∧
    (∀ s old new s2, BiConsistent s → ¬ old = new →
      lookupA s.forward new = none →
      lookupA s.inverse new = none →
      ¬ lookupA s.inverse old = none →
      ((getInner s.forward old).map Prod.fst).Nodup →
      ((getInner s.inverse old).map Prod.fst).Nodup →
      FKState.rename_table s old new = Except.ok s2 →
      BiConsistent s2) := by
  refine ⟨?_, ?_, ?_⟩
  · intro s ot oc dt dc h1 h2
    exact addForeignKey_biconsistent s ot oc dt dc h1 h2
  · intro s t old new h1 h2 h3 h4
    exact renameColumn_biconsistent s t old new h1 h2 h3 h4
  · intro s old new s2 h1 h2 h3 h4 h5 h6 h7 h8
    exact renameTable_biconsistent s old new h1 h2 h3 h4 h5 h6 h7 s2 h8

theorem claim_C1_witness :
    BiConsistent (FKState.add_foreign_key FKState.empty "A" "B" "T" "NEW") ∧
    BiConsistent (FKState.rename_column fkOneRel "T" "C" "D") ∧
    BiConsistent (okFKD (FKState.rename_table fkOneRel "T" "U")) :=
  ⟨claim_C1.1 FKState.empty "A" "B" "T" "NEW" biConsistent_empty rfl,
   claim_C1.2.1 fkOneRel "T" "C" "D" biConsistent_one (by decide) rfl rfl,
   claim_C1.2.2 fkOneRel "T" "U"
     (okFKD (FKState.rename_table fkOneRel "T" "U")) biConsistent_one
     (by decide) rfl rfl (fun h => Option.noConfusion h) (by decide)
     (by decide) rfl⟩

/-- C10 (corrected): when `(t, old)` is neither the origin of a relation
nor a destination with a non-empty origin set, and additionally every
member of the inverse origin set at `(t, new)` already points to
`(t, new)` in the forward view, `rename_column` leaves the forward
relation map pointwise unchanged.  Without the added consistency
precondition on `(t, new)` the claim is refuted by
`claim_C10_counterexample`: the final loop of `rename_column` retargets
the relations of stale inverse members. -/
theorem claim_C10 (s : FKState) (t old new : String)
    (h1 : lookup2 s.forward t old = none)
    (h2 : getSet s.inverse t old = [])
    (h3 : ∀ z ∈ getSet s.inverse t new,
      lookup2 s.forward z.1 z.2 = some (t, new)) :
    ∀ a b, lookup2 (FKState.rename_column s t old new).forward a b =
      lookup2 s.forward a b :=
  renameColumn_frame s t old new h1 h2 h3

theorem claim_C10_witness :
    (lookup2 fkOneRel.forward "T" "OLD" = none ∧
     getSet fkOneRel.inverse "T" "OLD" = []) ∧
    ∀ a b,
      lookup2 (FKState.rename_column fkOneRel "T" "OLD" "NEW").forward a b =
        lookup2 fkOneRel.forward a b :=
  ⟨⟨rfl, rfl⟩, claim_C10 fkOneRel "T" "OLD" "NEW" rfl rfl (by decide)⟩

/-- C6 (corrected): for an engine state whose index is bidirectionally
consistent with duplicate-free inner dictionaries, renaming table `A` to a
name `B` that is fresh in the table state and in both index views — where
`A` has an inverted-index entry, so that neither rename raises — and then
renaming `B` back to `A` restores the forward map, the inverse origin
sets, and the table state pointwise.  Exact dictionary equality, as the
specification claims, is refuted by `claim_C6_counterexample`: the rename
leaves behind empty entries created by `defaultdict` reads. -/
theorem claim_C6 (s : EngineState) (A B : String)
    (hInv : BiConsistent s.fk)
    (hne : ¬ A = B)
    (hTS : ¬ lookupA s.tableState A = none)
    (hTSB : lookupA s.tableState B = none)
    (hFB : lookupA s.fk.forward B = none)
    (hIB : lookupA s.fk.inverse B = none)
    (hIA : ¬ lookupA s.fk.inverse A = none)
    (hndF : ((getInner s.fk.forward A).map Prod.fst).Nodup)
    (hndI : ((getInner s.fk.inverse A).map Prod.fst).Nodup) :
    ∃ s1 s2 : EngineState,
      EngineState.rename_table s A B = Except.ok s1 ∧
      EngineState.rename_table s1 B A = Except.ok s2 ∧
      (∀ t c, lookup2 s2.fk.forward t c = lookup2 s.fk.forward t c) ∧
      (∀ t c : String, ∀ z : TableAndColumnName,
        z ∈ getSet s2.fk.inverse t c ↔ z ∈ getSet s.fk.inverse t c) ∧
      (∀ t, lookupA s2.tableState t = lookupA s.tableState t) := by
  obtain ⟨df, hdf⟩ := Option.ne_none_iff_exists'.mp hTS
  obtain ⟨fk1, hok1, hfwd1, hinv1, hfo1, hio1, hin1, hnf1, hni1⟩ :=
    renameTable_char s.fk A B hInv hne hFB hIB hIA hndF hndI
  have hBi1 : BiConsistent fk1 :=
    renameTable_biconsistent s.fk A B hInv hne hFB hIB hIA hndF hndI fk1 hok1
  have hne2 : ¬ B = A := fun h => hne h.symm
  obtain ⟨fk2, hok2, hfwd2, hinv2, hfo2, hio2, hin2, hnf2, hni2⟩ :=
    renameTable_char fk1 B A hBi1 hne2 hfo1 hio1 hin1 hnf1 hni1
  have hFB2 : ∀ c, lookup2 s.fk.forward B c = none := by
    intro c
    show (lookupA ((lookupA s.fk.forward B).getD []) c) = none
    rw [hFB]
    rfl
  have hIB2 : ∀ y, getSet s.fk.inverse B y = [] := by
    intro y
    show (lookupA ((lookupA s.fk.inverse B).getD []) y).getD [] = []
    rw [hIB]
    rfl
  have hDnotB : ∀ a b q1 q2, lookup2 s.fk.forward a b = some (q1, q2) →
      ¬ q1 = B := by
    intro a b q1 q2 hL hq
    have h1 := (hInv a b (q1, q2)).mp hL
    rw [hq, hIB2 q2] at h1
    exact (List.not_mem_nil _) h1
  refine ⟨{ tableState := aset (aerase s.tableState A) B df, fk := fk1 },
    { tableState :=
        aset (aerase (aset (aerase s.tableState A) B df) B) A df,
      fk := fk2 }, ?_, ?_, ?_, ?_, ?_⟩
  · unfold EngineState.rename_table
    simp only [hdf, hok1]
  · have hts1B : lookupA (aset (aerase s.tableState A) B df) B = some df := by
      rw [lookupA_aset, if_pos rfl]
    unfold EngineState.rename_table
    simp only [hts1B, hok2]
  · intro t c
    show lookup2 fk2.forward t c = lookup2 s.fk.forward t c
    rw [hfwd2 t c]
    by_cases ht : t = B
    · rw [if_pos ht, ht, hFB2 c]
    · rw [if_neg ht]
      by_cases ha : t = A
      · rw [if_pos ha]
        rw [hfwd1 B c]
        rw [if_neg hne2, if_pos rfl]
        rw [ha]
        cases hL : lookup2 s.fk.forward A c with
        | none => rfl
        | some q =>
          obtain ⟨q1, q2⟩ := q
          have hq1B : ¬ q1 = B := hDnotB _ _ _ _ hL
          rw [Option.map_some', Option.map_some']
          have hr1 : relabelT A B (q1, q2) =
              if q1 = A then (B, q2) else (q1, q2) := rfl
          rw [hr1]
          by_cases hq1A : q1 = A
          · rw [if_pos hq1A]
            have hr2 : relabelT B A (B, q2) = (A, q2) := by
              show (if (B, q2).1 = B then (A, (B, q2).2) else (B, q2)) =
                (A, q2)
              rw [if_pos rfl]
            rw [hr2, hq1A]
          · rw [if_neg hq1A]
            have hr2 : relabelT B A (q1, q2) = (q1, q2) := by
              show (if (q1, q2).1 = B then (A, (q1, q2).2) else (q1, q2)) =
                (q1, q2)
              rw [if_neg hq1B]
            rw [hr2]
      · rw [if_neg ha]
        rw [hfwd1 t c]
        rw [if_neg ha, if_neg ht]
        cases hL : lookup2 s.fk.forward t c with
        | none => rfl
        | some q =>
          obtain ⟨q1, q2⟩ := q
          have hq1B : ¬ q1 = B := hDnotB _ _ _ _ hL
          rw [Option.map_some', Option.map_some']
          have hr1 : relabelT A B (q1, q2) =
              if q1 = A then (B, q2) else (q1, q2) := rfl
          rw [hr1]
          by_cases hq1A : q1 = A
          · rw [if_pos hq1A]
            have hr2 : relabelT B A (B, q2) = (A, q2) := by
              show (if (B, q2).1 = B then (A, (B, q2).2) else (B, q2)) =
                (A, q2)
              rw [if_pos rfl]
            rw [hr2, hq1A]
          · rw [if_neg hq1A]
            have hr2 : relabelT B A (q1, q2) = (q1, q2) := by
              show (if (q1, q2).1 = B then (A, (q1, q2).2) else (q1, q2)) =
                (q1, q2)
              rw [if_neg hq1B]
            rw [hr2]
  · intro t c z
    obtain ⟨z1, z2⟩ := z
    show (z1, z2) ∈ getSet fk2.inverse t c ↔ _
    rw [hinv2 t c (z1, z2)]
    have hunlBA : ∀ w1 w2 : String, unlabelT B A (w1, w2) =
        if w1 = A then (B, w2) else (w1, w2) := by
      intro w1 w2
      rfl
    have hunlAB : ∀ w1 w2 : String, unlabelT A B (w1, w2) =
        if w1 = B then (A, w2) else (w1, w2) := by
      intro w1 w2
      rfl
    constructor
    · rintro ⟨htB, hzB, hm⟩
      have hzB2 : ¬ z1 = B := hzB
      by_cases hz1 : z1 = A
      · rw [hunlBA z1 z2, if_pos hz1] at hm
        rw [hinv1 _ _ (B, z2)] at hm
        obtain ⟨hx0, hz0, hm2⟩ := hm
        rw [hunlAB B z2, if_pos rfl] at hm2
        by_cases ht : t = A
        · rw [if_pos ht, if_pos rfl] at hm2
          rw [ht, hz1]
          exact hm2
        · rw [if_neg ht] at hm2
          rw [if_neg htB] at hm2
          rw [hz1]
          exact hm2
      · rw [hunlBA z1 z2, if_neg hz1] at hm
        rw [hinv1 _ _ (z1, z2)] at hm
        obtain ⟨hx0, hz0, hm2⟩ := hm
        rw [hunlAB z1 z2, if_neg hzB2] at hm2
        by_cases ht : t = A
        · rw [if_pos ht, if_pos rfl] at hm2
          rw [ht]
          exact hm2
        · rw [if_neg ht] at hm2
          rw [if_neg htB] at hm2
          exact hm2
    · intro hm
      have htB : ¬ t = B := by
        intro hc
        rw [hc, hIB2 c] at hm
        exact (List.not_mem_nil _) hm
      have hzB : ¬ z1 = B := by
        intro hc
        have h1 := (hInv z1 z2 (t, c)).mpr hm
        rw [hc, hFB2 z2] at h1
        exact Option.noConfusion h1
      refine ⟨htB, hzB, ?_⟩
      by_cases hz1 : z1 = A
      · rw [hunlBA z1 z2, if_pos hz1]
        rw [hinv1 _ _ (B, z2)]
        refine ⟨?_, hne2, ?_⟩
        · by_cases ht : t = A
          · rw [if_pos ht]
            exact hne2
          · rw [if_neg ht]
            exact ht
        · rw [hunlAB B z2, if_pos rfl]
          by_cases ht : t = A
          · rw [if_pos ht, if_pos rfl]
            rw [ht, hz1] at hm
            exact hm
          · rw [if_neg ht, if_neg htB]
            rw [hz1] at hm
            exact hm
      · rw [hunlBA z1 z2, if_neg hz1]
        rw [hinv1 _ _ (z1, z2)]
        refine ⟨?_, hz1, ?_⟩
        · by_cases ht : t = A
          · rw [if_pos ht]
            exact hne2
          · rw [if_neg ht]
            exact ht
        · rw [hunlAB z1 z2, if_neg hzB]
          by_cases ht : t = A
          · rw [if_pos ht, if_pos rfl]
            rw [ht] at hm
            exact hm
          · rw [if_neg ht, if_neg htB]
            exact hm
  · intro t
    show lookupA
      (aset (aerase (aset (aerase s.tableState A) B df) B) A df) t =
        lookupA s.tableState t
    rw [lookupA_aset]
    by_cases ht : t = A
    · rw [if_pos ht, ht, hdf]
    · rw [if_neg ht, lookupA_aerase]
      by_cases htB : t = B
      · rw [if_pos htB, htB, hTSB]
      · rw [if_neg htB, lookupA_aset, if_neg htB, lookupA_aerase, if_neg ht]

theorem claim_C6_witness :
    ∃ s1 s2 : EngineState,
      EngineState.rename_table engineRT "T" "U" = Except.ok s1 ∧
      EngineState.rename_table s1 "U" "T" = Except.ok s2 ∧
      (∀ t c, lookup2 s2.fk.forward t c = lookup2 engineRT.fk.forward t c) ∧
      (∀ t c : String, ∀ z : TableAndColumnName,
        z ∈ getSet s2.fk.inverse t c ↔ z ∈ getSet engineRT.fk.inverse t c) ∧
      (∀ t, lookupA s2.tableState t = lookupA engineRT.tableState t) :=
  claim_C6 engineRT "T" "U" biConsistent_one (by decide)
    (fun h => Option.noConfusion h) rfl rfl rfl
    (fun h => Option.noConfusion h) (by decide) (by decide)

theorem map_flatMap_aux {α β γ : Type} (l : List α) (f : α → List β)
    (g : β → γ) :
    (l.flatMap f).map g = l.flatMap (fun a => (f a).map g) := by
  induction l with
  | nil => rfl
  | cons a t ih => simp [List.flatMap_cons, ih]

theorem dimRightCols_eq (base : DataFrame) (cl : List String)
    (h2 : ("ID" : String) ∉ cl) : dimRightCols base cl = ["ID"] := by
  show (if ("ID" : String) ∈ cl then cl else cl ++ ["ID"]).filter
    (fun c => decide (c ∉ cl)) = ["ID"]
  rw [if_neg h2, List.filter_append]
  have ha : cl.filter (fun c => decide (c ∉ cl)) = [] := by
    rw [List.filter_eq_nil_iff]
    intro a ha
    simp [ha]
  have hb : (["ID"] : List String).filter (fun c => decide (c ∉ cl)) =
      ["ID"] := by
    simp [h2]
  rw [ha, hb]
  rfl

theorem substituted_rows_eq (base : DataFrame) (cl : List String)
    (ncn : String) (h1 : ("ID" : String) ∈ base.cols)
    (h2 : ("ID" : String) ∉ cl) :
    (replaceColumnsByFk base (extractTable base cl) cl ncn).rows =
      base.rows.flatMap
        (fun b => (joinOutputs base cl b).map (fkRename ncn)) := by
  have hd : (extractTable base cl).cols.filter
      (fun c => decide (c ∉ cl)) = ["ID"] := dimRightCols_eq base cl h2
  have hmem : ("ID___" : String) ∈
      (mergeLeft base (extractTable base cl) cl).cols := by
    show ("ID___" : String) ∈ base.cols ++
      ((extractTable base cl).cols.filter
        (fun c => decide (c ∉ cl))).map (suffixR base.cols)
    rw [hd]
    have hs : suffixR base.cols "ID" = "ID___" := by
      unfold suffixR
      rw [if_pos h1]
      rfl
    simp [hs]
  show (renameCol (mergeLeft base (extractTable base cl) cl) "ID___"
    ncn).rows = _
  unfold renameCol
  rw [if_pos hmem]
  show ((mergeLeft base (extractTable base cl) cl).rows.map
    (fun r => fun c => if c = ncn then r "ID___" else r c)) = _
  show ((base.rows.flatMap (fun b =>
    match matchingRows (extractTable base cl) cl b with
    | [] => [combineRow base.cols (dimRightCols base cl) b none]
    | ms => ms.map (fun d => combineRow base.cols (dimRightCols base cl) b
        (some d)))).map (fun r => fun c => if c = ncn then r "ID___"
          else r c)) = _
  rw [map_flatMap_aux]
  rfl

theorem dedupAux_subset (cl : List String) :
    ∀ (rows : List Row) (seen : List (List Value)) (r : Row),
      r ∈ dedupAux cl rows seen → r ∈ rows := by
  intro rows
  induction rows with
  | nil =>
    intro seen r h
    exact absurd h (List.not_mem_nil _)
  | cons r0 rs ih =>
    intro seen r h
    unfold dedupAux at h
    by_cases hk : keyOf cl r0 ∈ seen
    · rw [if_pos hk] at h
      exact List.mem_cons_of_mem _ (ih seen r h)
    · rw [if_neg hk] at h
      rcases List.mem_cons.mp h with h1 | h1
      · rw [h1]
        exact List.mem_cons_self _ _
      · exact List.mem_cons_of_mem _ (ih _ r h1)

theorem dedupAux_covers (cl : List String) :
    ∀ (rows : List Row) (seen : List (List Value)) (r : Row), r ∈ rows →
      keyOf cl r ∈ seen ∨
      ∃ rp, rp ∈ dedupAux cl rows seen ∧ keyOf cl rp = keyOf cl r := by
  intro rows
  induction rows with
  | nil =>
    intro seen r h
    exact absurd h (List.not_mem_nil _)
  | cons r0 rs ih =>
    intro seen r h
    unfold dedupAux
    rcases List.mem_cons.mp h with h1 | h1
    · by_cases hk : keyOf cl r0 ∈ seen
      · left
        rw [h1]
        exact hk
      · right
        rw [if_neg hk]
        exact ⟨r0, List.mem_cons_self _ _, by rw [h1]⟩
    · by_cases hk : keyOf cl r0 ∈ seen
      · rw [if_pos hk]
        exact ih seen r h1
      · rw [if_neg hk]
        rcases ih (keyOf cl r0 :: seen) r h1 with h2 | ⟨rp, h3, h4⟩
        · rcases List.mem_cons.mp h2 with h5 | h5
          · right
            exact ⟨r0, List.mem_cons_self _ _, h5.symm⟩
          · left
            exact h5
        · right
          exact ⟨rp, List.mem_cons_of_mem _ h3, h4⟩

theorem dim_rows_shape (base : DataFrame) (cl : List String) (d : Row)
    (hd : d ∈ (extractTable base cl).rows) :
    ∃ (i : Nat) (r : Row),
      (dedupRows cl (base.rows.filter (fun r => !(allNullB cl r))))[i]? =
        some r ∧
      d = fun c => if c = "ID" then Value.int (i + 1) else r c := by
  obtain ⟨p, hp, hdp⟩ := List.mem_map.mp hd
  refine ⟨p.1, p.2, List.mem_enum_iff_getElem?.mp hp, hdp.symm⟩

theorem dim_rows_mem (base : DataFrame) (cl : List String) (i : Nat)
    (r : Row)
    (h : (dedupRows cl (base.rows.filter (fun r => !(allNullB cl r))))[i]? =
      some r) :
    (fun c => if c = "ID" then Value.int (i + 1) else r c) ∈
      (extractTable base cl).rows := by
  apply List.mem_map.mpr
  exact ⟨(i, r), List.mem_enum_iff_getElem?.mpr h, rfl⟩

theorem matchingRows_mem (dim : DataFrame) (cl : List String) (b d : Row) :
    d ∈ matchingRows dim cl b ↔
      (d ∈ dim.rows ∧ ∀ c ∈ cl, b c = d c) := by
  unfold matchingRows
  rw [List.mem_filter]
  constructor
  · rintro ⟨hmem, hall⟩
    refine ⟨hmem, ?_⟩
    intro c hc
    have h2 := List.all_eq_true.mp hall c hc
    exact of_decide_eq_true h2
  · rintro ⟨hmem, hall⟩
    refine ⟨hmem, ?_⟩
    apply List.all_eq_true.mpr
    intro c hc
    exact decide_eq_true (hall c hc)

theorem combineRow_fk (baseCols : List String)
    (h1 : ("ID" : String) ∈ baseCols) (b : Row) (dOpt : Option Row) :
    combineRow baseCols ["ID"] b dOpt "ID___" =
      (match dOpt with
       | some dr => dr "ID"
       | none => Value.null) := by
  have hsuf : suffixR baseCols "ID" = "ID___" := by
    unfold suffixR
    rw [if_pos h1]
    rfl
  have hfind : (["ID"] : List String).find?
      (fun c0 => decide (suffixR baseCols c0 = "ID___")) = some "ID" := by
    rw [List.find?_cons_of_pos]
    exact decide_eq_true hsuf
  show (match (["ID"] : List String).find?
      (fun c0 => decide (suffixR baseCols c0 = "ID___")) with
    | some c0 => (match dOpt with
                  | some dr => dr c0
                  | none => Value.null)
    | none => b "ID___") = _
  rw [hfind]

theorem fkRename_self (ncn : String) (r : Row) :
    fkRename ncn r ncn = r "ID___" := by
  show (if ncn = ncn then r "ID___" else r ncn) = r "ID___"
  rw [if_pos rfl]

theorem keyOf_forall : ∀ (cl : List String) (f g : Row),
    keyOf cl f = keyOf cl g → ∀ c ∈ cl, f c = g c := by
  intro cl
  induction cl with
  | nil =>
    intro f g h c hc
    exact absurd hc (List.not_mem_nil _)
  | cons a t ih =>
    intro f g h c hc
    unfold keyOf at h
    rw [List.map_cons, List.map_cons] at h
    injection h with h1 h2
    rcases List.mem_cons.mp hc with h3 | h3
    · rw [h3]
      exact h1
    · exact ih f g h2 c h3

theorem dim_rows_not_allNull (base : DataFrame) (cl : List String)
    (h2 : ("ID" : String) ∉ cl) :
    ∀ d ∈ (extractTable base cl).rows, allNullB cl d = false := by
  intro d hd
  obtain ⟨i, r, hir, hdi⟩ := dim_rows_shape base cl d hd
  have hrmem : r ∈ dedupRows cl
      (base.rows.filter (fun r => !(allNullB cl r))) :=
    List.mem_iff_getElem?.mpr ⟨i, hir⟩
  have hr1 : r ∈ base.rows.filter (fun r => !(allNullB cl r)) :=
    dedupAux_subset cl _ [] r hrmem
  have hr2 := (List.mem_filter.mp hr1).2
  have hr3 : allNullB cl r = false := by
    cases hA : allNullB cl r
    · rfl
    · rw [hA] at hr2
      exact absurd hr2 (by decide)
  cases hB : allNullB cl d
  · rfl
  · exfalso
    have hall := List.all_eq_true.mp hB
    have hrt : allNullB cl r = true := by
      apply List.all_eq_true.mpr
      intro c hc
      have h5 := hall c hc
      have hcid : ¬ c = "ID" := fun hcc => h2 (hcc ▸ hc)
      have hdc : d c = r c := by
        rw [hdi]
        show (if c = "ID" then Value.int (i + 1) else r c) = r c
        rw [if_neg hcid]
      rw [hdc] at h5
      exact h5
    rw [hr3] at hrt
    exact Bool.noConfusion hrt

/-- C9 (confirmed): when the source frame has no `"ID"` column (and
`"ID"` is not among the extracted columns), the dimension's surrogate-key
column keeps the name `"ID"` through the merge, so the updated source's
foreign-key column is named `"ID"`; the computed name `ncn` does not
appear among its columns, while the index registers the relation under
`ncn`. -/
theorem claim_C9 (base : DataFrame) (cl : List String) (ncn : String)
    (h0 : ("ID" : String) ∉ base.cols) (h2 : ("ID" : String) ∉ cl)
    (h3 : ("ID___" : String) ∉ base.cols) (h4 : ¬ ncn = "ID")
    (h5 : ncn ∉ base.cols) :
    (replaceColumnsByFk base (extractTable base cl) cl ncn).cols =
      base.cols.filter (fun c => decide (c ∉ cl)) ++ ["ID"] ∧
    ncn ∉ (replaceColumnsByFk base (extractTable base cl) cl ncn).cols ∧
    (∀ (s : EngineState) (ft ntn : String) (s2 : EngineState),
      lookupA s.tableState ft = some base →
      EngineState.extract_new_table s ft cl ntn (some ncn) = Except.ok s2 →
      lookup2 s2.fk.forward ft ncn = some (ntn, "ID")) := by
  have hd := dimRightCols_eq base cl h2
  have hsuf : suffixR base.cols "ID" = "ID" := by
    unfold suffixR
    rw [if_neg h0]
  have hmcols : (mergeLeft base (extractTable base cl) cl).cols =
      base.cols ++ ["ID"] := by
    show base.cols ++ ((extractTable base cl).cols.filter
      (fun c => decide (c ∉ cl))).map (suffixR base.cols) = _
    have hd2 : (extractTable base cl).cols.filter
        (fun c => decide (c ∉ cl)) = ["ID"] := hd
    rw [hd2]
    simp [hsuf]
  have hnm : ("ID___" : String) ∉
      (mergeLeft base (extractTable base cl) cl).cols := by
    rw [hmcols]
    intro hc
    rcases List.mem_append.mp hc with hc1 | hc1
    · exact h3 hc1
    · rcases List.mem_cons.mp hc1 with hc2 | hc2
      · exact absurd hc2 (by decide)
      · exact absurd hc2 (List.not_mem_nil _)
  have hnorename : renameCol (mergeLeft base (extractTable base cl) cl)
      "ID___" ncn = mergeLeft base (extractTable base cl) cl := by
    unfold renameCol
    rw [if_neg hnm]
  have hcols : (replaceColumnsByFk base (extractTable base cl) cl ncn).cols
      = base.cols.filter (fun c => decide (c ∉ cl)) ++ ["ID"] := by
    show (renameCol (mergeLeft base (extractTable base cl) cl) "ID___"
      ncn).cols.filter (fun c => decide (c ∉ cl)) = _
    rw [hnorename, hmcols, List.filter_append]
    have hb : (["ID"] : List String).filter (fun c => decide (c ∉ cl)) =
        ["ID"] := by
      simp [h2]
    rw [hb]
  refine ⟨hcols, ?_, ?_⟩
  · rw [hcols]
    intro hc
    rcases List.mem_append.mp hc with hc1 | hc1
    · exact h5 (List.mem_filter.mp hc1).1
    · rcases List.mem_cons.mp hc1 with hc2 | hc2
      · exact h4 hc2
      · exact absurd hc2 (List.not_mem_nil _)
  · intro s ft ntn s2 hbase hok
    unfold EngineState.extract_new_table at hok
    simp only [hbase] at hok
    cases hall : cl.all (fun c => decide (c ∈ base.cols)) with
    | false =>
      rw [hall] at hok
      simp at hok
    | true =>
      rw [hall] at hok
      rw [if_pos rfl] at hok
      have hs2 := Except.ok.inj hok
      rw [← hs2]
      show lookup2 (aset2 s.fk.forward ft ncn (ntn, "ID")) ft ncn =
        some (ntn, "ID")
      rw [lookup2_aset2, if_pos rfl, if_pos rfl]

theorem claim_C9_witness :
    ((replaceColumnsByFk noIdDF (extractTable noIdDF ["TXT"]) ["TXT"]
      "ID_NAME").cols =
        noIdDF.cols.filter (fun c => decide (c ∉ (["TXT"] : List String)))
          ++ ["ID"]) ∧
    ("ID_NAME" : String) ∉
      (replaceColumnsByFk noIdDF (extractTable noIdDF ["TXT"]) ["TXT"]
        "ID_NAME").cols ∧
    (∀ (s : EngineState) (ft ntn : String) (s2 : EngineState),
      lookupA s.tableState ft = some noIdDF →
      EngineState.extract_new_table s ft ["TXT"] ntn (some "ID_NAME") =
        Except.ok s2 →
      lookup2 s2.fk.forward ft "ID_NAME" = some (ntn, "ID")) :=
  claim_C9 noIdDF ["TXT"] "ID_NAME" (by decide) (by decide) (by decide)
    (by decide) (by decide)

/-- C5 (confirmed): the updated source's rows are exactly the merged
outputs of the original rows, and every row whose value in the renamed
foreign-key column is non-null points to exactly one dimension row: that
row's `"ID"` equals the foreign-key value and its extracted-column values
equal the originating row's. -/
theorem claim_C5 (base : DataFrame) (cl : List String) (ncn : String)
    (h1 : ("ID" : String) ∈ base.cols) (h2 : ("ID" : String) ∉ cl) :
    ((replaceColumnsByFk base (extractTable base cl) cl ncn).rows =
      base.rows.flatMap
        (fun b => (joinOutputs base cl b).map (fkRename ncn))) ∧
    ∀ b ∈ base.rows, ∀ o ∈ joinOutputs base cl b,
      ¬ fkRename ncn o ncn = Value.null →
      ∃ d, d ∈ (extractTable base cl).rows ∧
        d "ID" = fkRename ncn o ncn ∧
        (∀ c ∈ cl, d c = b c) ∧
        ∀ d2, d2 ∈ (extractTable base cl).rows →
          d2 "ID" = fkRename ncn o ncn → d2 = d := by
  refine ⟨substituted_rows_eq base cl ncn h1 h2, ?_⟩
  intro b hb o ho hnn
  rw [fkRename_self] at hnn
  unfold joinOutputs at ho
  rw [dimRightCols_eq base cl h2] at ho
  cases hms : matchingRows (extractTable base cl) cl b with
  | nil =>
    rw [hms] at ho
    have ho2 : o ∈ [combineRow base.cols ["ID"] b none] := ho
    have ho3 : o = combineRow base.cols ["ID"] b none := by
      rcases List.mem_cons.mp ho2 with h | h
      · exact h
      · exact absurd h (List.not_mem_nil _)
    exfalso
    apply hnn
    rw [ho3, combineRow_fk base.cols h1 b none]
  | cons m ms =>
    rw [hms] at ho
    have ho2 : o ∈ (m :: ms).map
        (fun d => combineRow base.cols ["ID"] b (some d)) := ho
    obtain ⟨d0, hd0, hod⟩ := List.mem_map.mp ho2
    rw [← hms] at hd0
    have hd0m := (matchingRows_mem (extractTable base cl) cl b d0).mp hd0
    have hoval : o "ID___" = d0 "ID" := by
      rw [← hod]
      rw [combineRow_fk base.cols h1 b (some d0)]
    refine ⟨d0, hd0m.1, ?_, ?_, ?_⟩
    · rw [fkRename_self, hoval]
    · intro c hc
      exact (hd0m.2 c hc).symm
    · intro d2 hd2 hd2v
      rw [fkRename_self, hoval] at hd2v
      obtain ⟨i, r, hir, hdi⟩ := dim_rows_shape base cl d0 hd0m.1
      obtain ⟨j, r2, hjr, hdj⟩ := dim_rows_shape base cl d2 hd2
      have hv1 : d0 "ID" = Value.int (i + 1) := by
        rw [hdi]
        show (if ("ID" : String) = "ID" then Value.int (i + 1)
          else r "ID") = Value.int (i + 1)
        rw [if_pos rfl]
      have hv2 : d2 "ID" = Value.int (j + 1) := by
        rw [hdj]
        show (if ("ID" : String) = "ID" then Value.int (j + 1)
          else r2 "ID") = Value.int (j + 1)
        rw [if_pos rfl]
      rw [hv2, hv1] at hd2v
      have hji : (j : Int) + 1 = (i : Int) + 1 := Value.int.inj hd2v
      have hj : j = i := by omega
      rw [hj] at hjr
      rw [hir] at hjr
      have hr : r = r2 := Option.some.inj hjr
      rw [hdj, hdi, hj, ← hr]

/-- C7 (confirmed): rows that are null on every extracted column are
excluded from the dimension; the merged output of such a row is a single
row whose foreign-key value is null; rows with at least one non-null
extracted value are retained in the dimension (their extracted values
appear in some dimension row) and every merged output of such a row has a
non-null foreign-key value. -/
theorem claim_C7 (base : DataFrame) (cl : List String) (ncn : String)
    (h1 : ("ID" : String) ∈ base.cols) (h2 : ("ID" : String) ∉ cl) :
    (∀ d ∈ (extractTable base cl).rows, allNullB cl d = false) ∧
    ((replaceColumnsByFk base (extractTable base cl) cl ncn).rows =
      base.rows.flatMap
        (fun b => (joinOutputs base cl b).map (fkRename ncn))) ∧
    (∀ b ∈ base.rows, allNullB cl b = true →
      joinOutputs base cl b = [combineRow base.cols ["ID"] b none] ∧
      fkRename ncn (combineRow base.cols ["ID"] b none) ncn =
        Value.null) ∧
    (∀ b ∈ base.rows, allNullB cl b = false →
      (∃ d ∈ (extractTable base cl).rows, ∀ c ∈ cl, d c = b c) ∧
      ¬ joinOutputs base cl b = [] ∧
      ∀ o ∈ joinOutputs base cl b,
        (fkRename ncn o ncn).isNullB = false) := by
  have hP1 := dim_rows_not_allNull base cl h2
  refine ⟨hP1, substituted_rows_eq base cl ncn h1 h2, ?_, ?_⟩
  · intro b hb hnull
    have hms : matchingRows (extractTable base cl) cl b = [] := by
      rw [List.eq_nil_iff_forall_not_mem]
      intro d hd
      have hdm := (matchingRows_mem _ _ _ _).mp hd
      have hP1d := hP1 d hdm.1
      have hdt : allNullB cl d = true := by
        apply List.all_eq_true.mpr
        intro c hc
        have hb5 := List.all_eq_true.mp hnull c hc
        rw [← hdm.2 c hc]
        exact hb5
      rw [hP1d] at hdt
      exact Bool.noConfusion hdt
    constructor
    · unfold joinOutputs
      rw [dimRightCols_eq base cl h2, hms]
    · rw [fkRename_self, combineRow_fk base.cols h1 b none]
  · intro b hb hnotnull
    have hbf : b ∈ base.rows.filter (fun r => !(allNullB cl r)) := by
      rw [List.mem_filter]
      refine ⟨hb, ?_⟩
      rw [hnotnull]
      rfl
    rcases dedupAux_covers cl _ [] b hbf with hk | ⟨rp, hrp, hkey⟩
    · exact absurd hk (List.not_mem_nil _)
    · obtain ⟨i, hi⟩ := List.mem_iff_getElem?.mp hrp
      have hdmem := dim_rows_mem base cl i rp hi
      have hrpb := keyOf_forall cl rp b hkey
      have hdagree : ∀ c ∈ cl,
          (fun c => if c = "ID" then Value.int (i + 1) else rp c) c =
            b c := by
        intro c hc
        have hcid : ¬ c = "ID" := fun hcc => h2 (hcc ▸ hc)
        show (if c = "ID" then Value.int (i + 1) else rp c) = b c
        rw [if_neg hcid]
        exact hrpb c hc
      have hdm : (fun c => if c = "ID" then Value.int (i + 1) else rp c) ∈
          matchingRows (extractTable base cl) cl b := by
        rw [matchingRows_mem]
        exact ⟨hdmem, fun c hc => (hdagree c hc).symm⟩
      have hmsne : ¬ matchingRows (extractTable base cl) cl b = [] := by
        intro hc
        rw [hc] at hdm
        exact (List.not_mem_nil _) hdm
      refine ⟨⟨_, hdmem, hdagree⟩, ?_, ?_⟩
      · unfold joinOutputs
        rw [dimRightCols_eq base cl h2]
        cases hms : matchingRows (extractTable base cl) cl b with
        | nil => exact absurd hms hmsne
        | cons m ms =>
          intro hc
          have hc2 : (m :: ms).map
              (fun d => combineRow base.cols ["ID"] b (some d)) = [] := hc
          rw [List.map_cons] at hc2
          exact List.cons_ne_nil _ _ hc2
      · intro o ho
        unfold joinOutputs at ho
        rw [dimRightCols_eq base cl h2] at ho
        cases hms : matchingRows (extractTable base cl) cl b with
        | nil => exact absurd hms hmsne
        | cons m ms =>
          rw [hms] at ho
          have ho2 : o ∈ (m :: ms).map
              (fun d => combineRow base.cols ["ID"] b (some d)) := ho
          obtain ⟨dd, hdd, hod⟩ := List.mem_map.mp ho2
          rw [← hms] at hdd
          have hddm := (matchingRows_mem _ _ _ _).mp hdd
          obtain ⟨ii, rr, hiirr, hdi⟩ := dim_rows_shape base cl dd hddm.1
          rw [fkRename_self, ← hod, combineRow_fk base.cols h1 b (some dd)]
          show (dd "ID").isNullB = false
          rw [hdi]
          show (if ("ID" : String) = "ID" then Value.int (ii + 1)
            else rr "ID").isNullB = false
          rw [if_pos rfl]
          rfl

theorem claim_C5_witness :
    (("ID" : String) ∈ factDF.cols ∧
      ("ID" : String) ∉ (["TXT"] : List String)) ∧
    (((replaceColumnsByFk factDF (extractTable factDF ["TXT"]) ["TXT"]
        "ID_NAME").rows =
      factDF.rows.flatMap
        (fun b => (joinOutputs factDF ["TXT"] b).map
          (fkRename "ID_NAME"))) ∧
    ∀ b ∈ factDF.rows, ∀ o ∈ joinOutputs factDF ["TXT"] b,
      ¬ fkRename "ID_NAME" o "ID_NAME" = Value.null →
      ∃ d, d ∈ (extractTable factDF ["TXT"]).rows ∧
        d "ID" = fkRename "ID_NAME" o "ID_NAME" ∧
        (∀ c ∈ (["TXT"] : List String), d c = b c) ∧
        ∀ d2, d2 ∈ (extractTable factDF ["TXT"]).rows →
          d2 "ID" = fkRename "ID_NAME" o "ID_NAME" → d2 = d) :=
  ⟨⟨by decide, by decide⟩,
   claim_C5 factDF ["TXT"] "ID_NAME" (by decide) (by decide)⟩

theorem claim_C7_witness :
    (("ID" : String) ∈ factDF.cols ∧
      ("ID" : String) ∉ (["TXT"] : List String)) ∧
    ((∀ d ∈ (extractTable factDF ["TXT"]).rows,
      allNullB ["TXT"] d = false) ∧
    ((replaceColumnsByFk factDF (extractTable factDF ["TXT"]) ["TXT"]
        "ID_NAME").rows =
      factDF.rows.flatMap
        (fun b => (joinOutputs factDF ["TXT"] b).map
          (fkRename "ID_NAME"))) ∧
    (∀ b ∈ factDF.rows, allNullB ["TXT"] b = true →
      joinOutputs factDF ["TXT"] b =
        [combineRow factDF.cols ["ID"] b none] ∧
      fkRename "ID_NAME" (combineRow factDF.cols ["ID"] b none)
        "ID_NAME" = Value.null) ∧
    (∀ b ∈ factDF.rows, allNullB ["TXT"] b = false →
      (∃ d ∈ (extractTable factDF ["TXT"]).rows,
        ∀ c ∈ (["TXT"] : List String), d c = b c) ∧
      ¬ joinOutputs factDF ["TXT"] b = [] ∧
      ∀ o ∈ joinOutputs factDF ["TXT"] b,
        (fkRename "ID_NAME" o "ID_NAME").isNullB = false)) :=
  ⟨⟨by decide, by decide⟩,
   claim_C7 factDF ["TXT"] "ID_NAME" (by decide) (by decide)⟩
